import Mathlib

/-!
Shallow embedding of the JellysList feed generator
(`src/generate_feed.py` and `src/generate_feed_fast.py`).

Text is modelled as `List Char` (Python `str`, one entry per code point).
Regular-expression searches of the two scripts are embedded as explicit
scanners over `List Char` that realise the leftmost-match semantics of
`re.search` for the concrete patterns appearing in the source.
Machine-level values (SHA-256) are computed over `Nat` with explicit
reduction modulo 2^32.
-/

set_option maxRecDepth 1000000

/-! ## Character classes and case-insensitive matching

Python `re` with `re.I` compares characters by Unicode simple lowercase,
extended by the extra case-equivalence classes of CPython's pattern
compiler (`re._casefix._EXTRA_CASES`).  Every pattern character of the two
scripts is ASCII, and the part of the Unicode tables that is observable
when one side of a comparison is ASCII is small; it is embedded exactly
(`sreLower`, `sreExtraPair`).  Python `str.lower()` is the full case
mapping, which differs from the simple one on U+0130 — the source of a
genuine divergence between the two keyword matchers of the scripts.
`pySpace` embeds the whitespace class `\s` (and `str.strip` /
`str.isspace` whitespace) for the code points that can occur in decoded
SEC documents; it covers the ASCII whitespace plus the common Unicode
spaces Python treats as whitespace. -/

def pySpace (c : Char) : Bool :=
  c = ' ' || c = '\t' || c = '\n' || c = '\r' || c = '\x0b' || c = '\x0c' ||
  c = '\x1c' || c = '\x1d' || c = '\x1e' || c = '\x1f' || c = '\x85' ||
  c = '\xa0' || c = ' ' || (' ' ≤ c && c ≤ ' ') ||
  c = ' ' || c = ' ' || c = ' ' || c = ' ' || c = '　'

/-- The Unicode simple (single-code-point) lowercase mapping used by
CPython `re` for `re.IGNORECASE` comparisons, embedded exactly on the code
points whose simple lowercase is an ASCII character: the ASCII uppercase
letters, U+0130 (LATIN CAPITAL LETTER I WITH DOT ABOVE, lowercased to i)
and U+212A (KELVIN SIGN, lowercased to k).  These are the only code points
in all of Unicode whose lowercase is ASCII; every other code point is
returned unchanged, which is exact for any comparison in which one side is
an ASCII character — as every pattern character of the two scripts is. -/
def sreLower (c : Char) : Char :=
  if c = 'İ' then 'i'
  else if c = '\u212A' then 'k'
  else c.toLower

/-- The case-equivalence classes of CPython's extra-cases table for
`re.IGNORECASE` (`re._casefix._EXTRA_CASES`) that contain an ASCII letter:
i ~ U+0131 (LATIN SMALL LETTER DOTLESS I) and s ~ U+017F (LATIN SMALL
LETTER LONG S).  Every remaining class of that table pairs non-ASCII
characters only (micro sign ~ mu, Greek letter/symbol pairs) and can never
equate a character with an ASCII pattern character. -/
def sreExtraPair (a b : Char) : Bool :=
  (a = 'i' && b = 'ı') || (a = 'ı' && b = 'i') ||
  (a = 's' && b = 'ſ') || (a = 'ſ' && b = 's')

/-- Case-insensitive character comparison of `re.IGNORECASE`: the simple
lowercases are equal, or they form one of the compiler's extra
case-equivalence pairs. -/
def ciEq (a b : Char) : Bool :=
  decide (sreLower a = sreLower b) || sreExtraPair (sreLower a) (sreLower b)

/-- The three code points on which the two keyword matchers of the scripts
genuinely diverge: U+017F (long s) and U+0131 (dotless i) are
case-equivalent to s and i under `re.IGNORECASE` but are fixed points of
`str.lower()`, while U+0130 matches i under `re.IGNORECASE` but lowercases
to the two-character sequence i, U+0307. -/
def sreSpecial (c : Char) : Bool :=
  c = 'ſ' || c = 'ı' || c = 'İ'

/-- `ciStartsWith pat s` : does `s` begin with a case-insensitive occurrence
of `pat`? -/
def ciStartsWith : List Char → List Char → Bool
  | [], _ => true
  | _ :: _, [] => false
  | p :: ps, c :: cs => ciEq p c && ciStartsWith ps cs

/-- Consume a case-insensitive occurrence of `pat` from the front of `s`,
returning the remainder. -/
def ciConsume : List Char → List Char → Option (List Char)
  | [], s => some s
  | _ :: _, [] => none
  | p :: ps, c :: cs => if ciEq p c then ciConsume ps cs else none

/-- Is there a case-insensitive occurrence of `pat` anywhere in `t`?
(The executable form of `re.search(re.escape(pat), t, re.I) is not None`
for a literal pattern.) -/
def containsCI (pat : List Char) : List Char → Bool
  | [] => ciStartsWith pat []
  | c :: cs => ciStartsWith pat (c :: cs) || containsCI pat cs

/-- Case-sensitive `str.startswith`. -/
def pyStartsWith : List Char → List Char → Bool
  | [], _ => true
  | _ :: _, [] => false
  | p :: ps, c :: cs => p = c && pyStartsWith ps cs

/-- Python `str.lower()` of one character: the full Unicode case mapping,
which may produce several code points.  U+0130 lowercases to i followed by
U+0307 (COMBINING DOT ABOVE) — the one code point where the full mapping
differs from the simple one in the lowercase direction — the Kelvin sign
lowercases to k, and ASCII uppercase as usual.  No other code point
lowercases into ASCII, so returning the remaining code points unchanged is
exact for every containment comparison against the scripts' ASCII
keywords. -/
def pyCharLower (c : Char) : List Char :=
  if c = 'İ' then ['i', '\u0307']
  else if c = '\u212A' then ['k']
  else [c.toLower]

/-- Python `str.lower()`. -/
def pyLower (s : List Char) : List Char := (s.map pyCharLower).flatten

/-- Python `str.strip()` with no argument: remove leading and trailing
whitespace. -/
def pyStrip (s : List Char) : List Char :=
  ((s.dropWhile pySpace).reverse.dropWhile pySpace).reverse

/-- Python `str.split(sep)` for a one-character separator: split on every
occurrence, keeping empty fields. -/
def pySplitOn (sep : Char) : List Char → List (List Char)
  | [] => [[]]
  | c :: cs =>
    let rest := pySplitOn sep cs
    if c = sep then [] :: rest
    else match rest with
      | [] => [[c]]
      | r :: rs => (c :: r) :: rs

/-- Line-break characters recognised by Python `str.splitlines` that can
occur in latin-1-decoded index files (besides the `\r\n` pair handled
separately). -/
def pyLineBreak (c : Char) : Bool :=
  c = '\n' || c = '\r' || c = '\x0b' || c = '\x0c' ||
  c = '\x1c' || c = '\x1d' || c = '\x1e' || c = '\x85'

/-- Python `str.splitlines()`: split at line breaks, treating `\r\n` as a
single break and producing no trailing empty line. -/
def pySplitLines : List Char → List (List Char)
  | [] => []
  | '\r' :: '\n' :: cs2 => [] :: pySplitLines cs2
  | c :: cs =>
    if pyLineBreak c then [] :: pySplitLines cs
    else match pySplitLines cs with
      | [] => [[c]]
      | r :: rs => (c :: r) :: rs

/-! ## SHA-256 (`hashlib.sha256(text.encode("utf-8")).hexdigest()`)

A complete executable model: UTF-8 encoding of the text, FIPS-180-4
SHA-256 over the byte list, lowercase hex digest.  Words are `Nat`
reduced modulo 2^32 after every arithmetic step. -/

def w32 (n : Nat) : Nat := n % 4294967296

def rotr (k x : Nat) : Nat := w32 ((x >>> k) ||| ((x % (1 <<< k)) <<< (32 - k)))

def shaCh (x y z : Nat) : Nat := (x &&& y) ^^^ ((x ^^^ 4294967295) &&& z)

def shaMaj (x y z : Nat) : Nat := (x &&& y) ^^^ (x &&& z) ^^^ (y &&& z)

def bigSigma0 (x : Nat) : Nat := rotr 2 x ^^^ rotr 13 x ^^^ rotr 22 x

def bigSigma1 (x : Nat) : Nat := rotr 6 x ^^^ rotr 11 x ^^^ rotr 25 x

def smallSigma0 (x : Nat) : Nat := rotr 7 x ^^^ rotr 18 x ^^^ (x >>> 3)

def smallSigma1 (x : Nat) : Nat := rotr 17 x ^^^ rotr 19 x ^^^ (x >>> 10)

def shaK : List Nat :=
  [1116352408, 1899447441, 3049323471, 3921009573,
   961987163, 1508970993, 2453635748, 2870763221,
   3624381080, 310598401, 607225278, 1426881987,
   1925078388, 2162078206, 2614888103, 3248222580,
   3835390401, 4022224774, 264347078, 604807628,
   770255983, 1249150122, 1555081692, 1996064986,
   2554220882, 2821834349, 2952996808, 3210313671,
   3336571891, 3584528711, 113926993, 338241895,
   666307205, 773529912, 1294757372, 1396182291,
   1695183700, 1986661051, 2177026350, 2456956037,
   2730485921, 2820302411, 3259730800, 3345764771,
   3516065817, 3600352804, 4094571909, 275423344,
   430227734, 506948616, 659060556, 883997877,
   958139571, 1322822218, 1537002063, 1747873779,
   1955562222, 2024104815, 2227730452, 2361852424,
   2428436474, 2756734187, 3204031479, 3329325298]

/-- `k` bytes of `n`, big-endian. -/
def beBytes (k n : Nat) : List Nat :=
  (List.range k).map (fun i => (n >>> (8 * (k - 1 - i))) % 256)

/-- SHA-256 message padding over a byte list. -/
def shaPad (msg : List Nat) : List Nat :=
  msg ++ 0x80 :: List.replicate ((64 - (msg.length + 9) % 64) % 64) 0 ++
    beBytes 8 (8 * msg.length)

/-- Split a byte list into 64-byte chunks (fuel-driven for structural
termination; fuel `≥ length` suffices). -/
def chunk64F : Nat → List Nat → List (List Nat)
  | _, [] => []
  | 0, _ => []
  | n + 1, l => l.take 64 :: chunk64F n (l.drop 64)

/-- Big-endian 32-bit words of a chunk. -/
def words16 : List Nat → List Nat
  | b0 :: b1 :: b2 :: b3 :: rest =>
    (((b0 * 256 + b1) * 256 + b2) * 256 + b3) :: words16 rest
  | _ => []

/-- Extend the 16-word message schedule to 64 words.  The accumulator holds
the schedule in reverse (newest word first). -/
def extendW : Nat → List Nat → List Nat
  | 0, acc => acc
  | n + 1, acc =>
    let nw := w32 (smallSigma1 (acc.getD 1 0) + acc.getD 6 0 +
                   smallSigma0 (acc.getD 14 0) + acc.getD 15 0)
    extendW n (nw :: acc)

def schedule (ws : List Nat) : List Nat := (extendW 48 ws.reverse).reverse

structure H8 where
  ha : Nat
  hb : Nat
  hc : Nat
  hd : Nat
  he : Nat
  hf : Nat
  hg : Nat
  hh : Nat
deriving DecidableEq

def shaH0 : H8 :=
  ⟨1779033703, 3144134277, 1013904242, 2773480762,
   1359893119, 2600822924, 528734635, 1541459225⟩

def compressStep (s : H8) (kw : Nat × Nat) : H8 :=
  let t1 := w32 (s.hh + bigSigma1 s.he + shaCh s.he s.hf s.hg + kw.1 + kw.2)
  let t2 := w32 (bigSigma0 s.ha + shaMaj s.ha s.hb s.hc)
  ⟨w32 (t1 + t2), s.ha, s.hb, s.hc, w32 (s.hd + t1), s.he, s.hf, s.hg⟩

def compressChunk (h : H8) (chunk : List Nat) : H8 :=
  let s := (shaK.zip (schedule (words16 chunk))).foldl compressStep h
  ⟨w32 (h.ha + s.ha), w32 (h.hb + s.hb), w32 (h.hc + s.hc), w32 (h.hd + s.hd),
   w32 (h.he + s.he), w32 (h.hf + s.hf), w32 (h.hg + s.hg), w32 (h.hh + s.hh)⟩

def sha256Bytes (msg : List Nat) : List Nat :=
  let p := shaPad msg
  let hh := (chunk64F p.length p).foldl compressChunk shaH0
  beBytes 4 hh.ha ++ beBytes 4 hh.hb ++ beBytes 4 hh.hc ++ beBytes 4 hh.hd ++
  beBytes 4 hh.he ++ beBytes 4 hh.hf ++ beBytes 4 hh.hg ++ beBytes 4 hh.hh

def hexDigit (n : Nat) : Char := "0123456789abcdef".toList.getD n '0'

def bytesToHex (bs : List Nat) : List Char :=
  bs.foldr (fun b acc => hexDigit (b / 16) :: hexDigit (b % 16) :: acc) []

/-- UTF-8 encoding of one code point. -/
def utf8Encode (c : Char) : List Nat :=
  let n := c.toNat
  if n < 128 then [n]
  else if n < 2048 then [192 + n / 64, 128 + n % 64]
  else if n < 65536 then [224 + n / 4096, 128 + (n / 64) % 64, 128 + n % 64]
  else [240 + n / 262144, 128 + (n / 4096) % 64, 128 + (n / 64) % 64, 128 + n % 64]

/-- `hash_text` of both scripts:
`hashlib.sha256(text.encode("utf-8")).hexdigest()`. -/
def hash_text (t : List Char) : List Char :=
  bytesToHex (sha256Bytes ((t.map utf8Encode).flatten))

/-! ## Section Extractor

`re.search` scanners for the concrete patterns of the two scripts.  Python
`re.search` returns the leftmost match; the quantifiers of these patterns
(`\s+`, `[..]*`, the lazy `.*?`) are deterministic here because each
character class excludes the literal character that follows it, so greedy
maximal munch (resp. lazy shortest scan with retry) realises the exact
backtracking semantics. -/

/-- First matching suffix: apply `f` at every start position, leftmost
first (including the empty suffix, as `re.search` does). -/
def firstSome (f : List Char → Option α) : List Char → Option α
  | [] => f []
  | c :: cs =>
    match f (c :: cs) with
    | some r => some r
    | none => firstSome f cs

/-- Like `firstSome`, but also return the text before the match start
(`text[:m.start()]`). -/
def searchSplit (f : List Char → Option α) : List Char → Option (List Char × α)
  | [] => (f []).map (fun a => ([], a))
  | c :: cs =>
    match f (c :: cs) with
    | some r => some ([], r)
    | none => (searchSplit f cs).map (fun pr => (c :: pr.1, pr.2))

/-- The separator class `[\.\-–—:\s]` of `generate_feed.py` (with genuine
en dash U+2013 and em dash U+2014). -/
def sepClassPlain (c : Char) : Bool :=
  c = '.' || c = '-' || c = '–' || c = '—' || c = ':' || pySpace c

/-- The separator class of `generate_feed_fast.py`.  Its source bytes are
the UTF-8 encoding of `â` (U+00E2), `€` (U+20AC), `“` (U+201C), `â`, `€`,
`”` (U+201D) — a mojibake double-encoding of the en/em dashes — so the
class contains those five characters, not the Unicode dashes. -/
def sepClassFast (c : Char) : Bool :=
  c = '.' || c = '-' || c = 'â' || c = '€' || c = '“' || c = '”' || c = ':' ||
  pySpace c

/-- `\s+`: require at least one whitespace character, consume the run. -/
def wsPlus (s : List Char) : Option (List Char) :=
  match s with
  | [] => none
  | c :: _ => if pySpace c then some (s.dropWhile pySpace) else none

/-- Match `ITEM\s+4[sep]*PURPOSE\s+OF\s+TRANSACTION` (case-insensitive) at
the start of `s`; on success return the remainder after the match
(`text[m.end():]`). -/
def tryHeaderAt (sep : Char → Bool) (s : List Char) : Option (List Char) := do
  let s1 ← ciConsume "ITEM".toList s
  let s2 ← wsPlus s1
  match s2 with
  | '4' :: s3 => do
    let s4 ← ciConsume "PURPOSE".toList (s3.dropWhile sep)
    let s5 ← wsPlus s4
    let s6 ← ciConsume "OF".toList s5
    let s7 ← wsPlus s6
    ciConsume "TRANSACTION".toList s7
  | _ => none

/-- Match `ITEM\s+5[sep]` (case-insensitive) at the start of `s`. -/
def tryItem5At (sep : Char → Bool) (s : List Char) : Option Unit := do
  let s1 ← ciConsume "ITEM".toList s
  let s2 ← wsPlus s1
  match s2 with
  | '5' :: c :: _ => if sep c then some () else none
  | _ => none

/-- The plain-text tier shared by both scripts (lines 39–43 of
`generate_feed.py`, lines 47–51 of `generate_feed_fast.py`), parameterised
by the separator class. -/
def plainTextItem4 (sep : Char → Bool) (t : List Char) : Option (List Char) :=
  match searchSplit (tryHeaderAt sep) t with
  | none => none
  | some (_, rest) =>
    match searchSplit (tryItem5At sep) rest with
    | some (before, _) => some (pyStrip before)
    | none => some (pyStrip rest)

/-- `extract_item_4` of `generate_feed.py`: plain-text header search only. -/
def extract_item_4 (t : List Char) : Option (List Char) :=
  plainTextItem4 sepClassPlain t

/-- `[_\s]` inside the markup tags of the fast script's XML pattern. -/
def tagSep (c : Char) : Bool := c = '_' || pySpace c

/-- Does `s` start with a closing tag `</item[_\s]*4>` (case-insensitive)? -/
def closeTagAt (s : List Char) : Bool :=
  match ciConsume "</item".toList s with
  | none => false
  | some s1 =>
    match s1.dropWhile tagSep with
    | '4' :: '>' :: _ => true
    | _ => false

/-- The lazy capture `(.*?)` before `</item[_\s]*4>`: shortest prefix whose
remainder starts with the closing tag. -/
def captureUntilClose : List Char → Option (List Char)
  | [] => none
  | c :: cs =>
    if closeTagAt (c :: cs) then some []
    else (captureUntilClose cs).map (c :: ·)

/-- The lazy `.*?>` closing the opening tag: scan to each `>` in turn and
take the first one after which a captured body with closing tag exists. -/
def openTagClose : List Char → Option (List Char)
  | [] => none
  | c :: cs =>
    if c = '>' then
      match captureUntilClose cs with
      | some cap => some cap
      | none => openTagClose cs
    else openTagClose cs

/-- Match `<item[_\s]*4.*?>(.*?)</item[_\s]*4>` (with `re.I | re.S`) at the
start of `s`, returning the captured group. -/
def tryTaggedAt (s : List Char) : Option (List Char) := do
  let s1 ← ciConsume "<item".toList s
  match s1.dropWhile tagSep with
  | '4' :: s2 => openTagClose s2
  | _ => none

/-- `extract_item_4` of `generate_feed_fast.py`: tagged-markup tier first,
plain-text fallback second. -/
def extract_item_4_fast (t : List Char) : Option (List Char) :=
  match firstSome tryTaggedAt t with
  | some cap => some (pyStrip cap)
  | none => plainTextItem4 sepClassFast t

/-! ## Keyword Matcher and Highlighter -/

def KEYWORDS : List (List Char) :=
  ["100%".toList, "100 %".toList, "all shares".toList, "fully acquire".toList,
   "buyout".toList, "takeover".toList, "converted".toList,
   "merger agreement".toList]

/-- Case-sensitive `needle in hay` (Python substring containment). -/
def pyContains (needle : List Char) : List Char → Bool
  | [] => pyStartsWith needle []
  | c :: cs => pyStartsWith needle (c :: cs) || pyContains needle cs

/-- `generate_feed.py` line 87:
`any(k.lower() in text.lower() for k in KEYWORDS)`. -/
def anyKeywordLower (t : List Char) : Bool :=
  KEYWORDS.any (fun k => pyContains (pyLower k) (pyLower t))

/-- `keyword_match` of `generate_feed_fast.py`: for each keyword,
`re.search(re.escape(kw), text, re.I)`; true on the first hit. -/
def keyword_match (t : List Char) (kws : List (List Char)) : Bool :=
  kws.any (fun kw => containsCI kw t)

def strongOpen : List Char := "<strong>".toList

def strongClose : List Char := "</strong>".toList

/-- `re.compile(re.escape(pat), re.I).sub(repl, ·)`: replace every
(leftmost, non-overlapping) case-insensitive occurrence of the literal
`pat`, the replacement computed from the matched text.  Fuel-driven; fuel
`= length of the text` suffices since every step consumes at least one
character (the patterns in use — keywords and company names — are
non-empty). -/
def reSubCI (pat : List Char) (repl : List Char → List Char) :
    Nat → List Char → List Char
  | _, [] => []
  | 0, t => t
  | n + 1, c :: cs =>
    if ciStartsWith pat (c :: cs) then
      repl ((c :: cs).take pat.length) ++ reSubCI pat repl n ((c :: cs).drop pat.length)
    else c :: reSubCI pat repl n cs

def pyReSubCI (pat : List Char) (repl : List Char → List Char)
    (t : List Char) : List Char :=
  reSubCI pat repl t.length t

/-- `highlight_keywords`: wrap every keyword occurrence in `<strong>` tags,
one sequential substitution pass per keyword. -/
def highlight_keywords (t : List Char) (kws : List (List Char)) : List Char :=
  kws.foldl (fun acc kw => pyReSubCI kw (fun m => strongOpen ++ m ++ strongClose) acc) t

/-- `highlight_company` of `generate_feed_fast.py`: substitute each
case-insensitive occurrence of the company name by
`<strong>company</strong>` (the replacement is the company string as
configured, not the matched text). -/
def highlight_company (t comp : List Char) : List Char :=
  pyReSubCI comp (fun _ => strongOpen ++ comp ++ strongClose) t

/-! ## Change Tracker (`seen_hashes`) -/

/-- Lookup in the JSON-backed `seen_hashes` dict (association list; newest
binding first, as `dictSet` prepends). -/
def dictGet (m : List (List Char × List Char)) (k : List Char) :
    Option (List Char) :=
  (m.find? (fun p => decide (p.1 = k))).map (·.2)

/-- `seen_hashes[key] = value`. -/
def dictSet (m : List (List Char × List Char)) (k v : List Char) :
    List (List Char × List Char) :=
  (k, v) :: m

/-- Lines 102–108 of `generate_feed.py` / 183–186 of
`generate_feed_fast.py`: compute the SHA-256 of the highlighted content,
suppress when it equals the stored hash for the identifier, otherwise emit
and record the new hash. -/
def dedupStep (seen : List (List Char × List Char)) (ident content : List Char) :
    Bool × List (List Char × List Char) :=
  let h := hash_text content
  if dictGet seen ident = some h then (false, seen)
  else (true, dictSet seen ident h)

/-! ## Document Locator

The network is modelled by supplying the responses: an `Except PyExc`
value stands for `requests.get` (errors raise), and the parsed document
table of the index page is part of the response.  `generate_feed.py`'s
`get_primary_doc` has no `try`/`except` and no status check;
`generate_feed_fast.py`'s `fetch_filing_text` wraps its whole body in
`try`/`except` and checks both statuses. -/

inductive PyExc where
  | netExc (msg : List Char)
  | indexError
  | typeError
  | valueError (msg : List Char)
deriving DecidableEq

/-- One `<td>` cell of the index-page document table: its text and the
`href` of its `<a>` child, when present. -/
structure Cell where
  ctext : List Char
  clink : Option (List Char)
deriving DecidableEq

def dummyCell : Cell := ⟨[], none⟩

/-- The parsed index page: the rows of `find("table", class_="tableFile")`
when that table exists. -/
structure IndexPage where
  tableRows : Option (List (List Cell))
deriving DecidableEq

/-- The shared row loop of both locators: skip empty rows, inspect
`cols[3]` (raising `IndexError` on short rows), and on the first row whose
document type starts with `SC 13D` read `cols[2].a["href"]` (raising
`TypeError` when the cell has no link). -/
def scanDocRows : List (List Cell) → Except PyExc (Option (List Char))
  | [] => .ok none
  | row :: rest =>
    match row with
    | [] => scanDocRows rest
    | _ :: _ =>
      if 3 < row.length then
        if pyStartsWith "SC 13D".toList (pyStrip (row.getD 3 dummyCell).ctext) then
          match (row.getD 2 dummyCell).clink with
          | none => .error .typeError
          | some href => .ok (some ("https://www.sec.gov".toList ++ href))
        else scanDocRows rest
      else .error .indexError

/-- `get_primary_doc` of `generate_feed.py` (lines 45–56).  The result is
`Except` because the function has no exception handling: a raising
`requests.get`, a short row or a linkless cell propagates. -/
def get_primary_doc (resp : Except PyExc IndexPage) :
    Except PyExc (Option (List Char)) :=
  match resp with
  | .error e => .error e
  | .ok page =>
    match page.tableRows with
    | none => .ok none
    | some rows => scanDocRows (rows.drop 1)

/-- A fetched page for the fast script: HTTP status, parsed index table,
and the `get_text("\n")` text of the body. -/
structure HttpResp where
  status : Nat
  page : IndexPage
  rtext : List Char
deriving DecidableEq

/-- The body of `fetch_filing_text`'s `try` block (lines 74–104 of
`generate_feed_fast.py`); the second request is a function of the located
primary-document URL. -/
def fetchBody (resp1 : Except PyExc HttpResp)
    (fetch2 : List Char → Except PyExc HttpResp) :
    Except PyExc (Option (List Char)) :=
  match resp1 with
  | .error e => .error e
  | .ok r =>
    if r.status ≠ 200 then .ok none
    else match r.page.tableRows with
      | none => .ok none
      | some rows =>
        match scanDocRows (rows.drop 1) with
        | .error e => .error e
        | .ok none => .ok none
        | .ok (some url) =>
          match fetch2 url with
          | .error e => .error e
          | .ok r2 => if r2.status ≠ 200 then .ok none else .ok (some r2.rtext)

/-- `fetch_filing_text` of `generate_feed_fast.py` (lines 68–107): the
`except Exception` handler converts every raised exception to `None`. -/
def fetch_filing_text (resp1 : Except PyExc HttpResp)
    (fetch2 : List Char → Except PyExc HttpResp) : Option (List Char) :=
  match fetchBody resp1 fetch2 with
  | .error _ => none
  | .ok v => v

/-! ## Filing Source Adapter: daily-index URLs and master-index parsing -/

def natDigits (n : Nat) : List Char := Nat.toDigits 10 n

/-- Python `f"{n:02d}"` (and `strftime("%d")`) for `0 ≤ n ≤ 99`. -/
def pyFmt02 (n : Nat) : List Char :=
  if n < 10 then '0' :: natDigits n else natDigits n

/-- One record of the daily master index, as built by
`parse_master_index` (the dict of lines 156–162). -/
structure FilingRef where
  cik : List Char
  company : List Char
  form_type : List Char
  date_filed : List Char
  path : List Char
deriving DecidableEq

def edgarBase : List Char := "https://www.sec.gov/Archives/edgar/daily-index".toList

/-- `get_index_urls_for_date` of `generate_feed_fast.py` (lines 109–122),
on a date given as year/month/day numbers. -/
def get_index_urls_for_date (y m d : Nat) : List (List Char) :=
  let qtr : List Char :=
    if m ≤ 3 then "QTR1".toList
    else if m ≤ 6 then "QTR2".toList
    else if m ≤ 9 then "QTR3".toList
    else "QTR4".toList
  let stem := edgarBase ++ "/".toList ++ natDigits y ++ "/".toList ++ qtr ++
      "/master.".toList ++ natDigits y ++ pyFmt02 m ++ pyFmt02 d ++ ".idx".toList
  [stem ++ ".gz".toList, stem]

/-- The per-day part of the main loop (lines 170–172): every URL returned
by `get_index_urls_for_date` is fetched and parsed, and the filings of each
are processed — the loop body is unconditional, it does not stop after a
successful compressed fetch.  `fetchParse` stands for
`parse_master_index` applied to a URL. -/
def dayFilings (fetchParse : List Char → List FilingRef) (y m d : Nat) :
    List FilingRef :=
  ((get_index_urls_for_date y m d).map fetchParse).flatten

structure PyDate where
  dy : Nat
  dm : Nat
  dd : Nat
deriving DecidableEq

def isDigit (c : Char) : Bool := '0' ≤ c && c ≤ '9'

def digitVal (c : Char) : Nat := c.toNat - '0'.toNat

def isLeap (y : Nat) : Bool := y % 4 = 0 && (y % 100 ≠ 0 || y % 400 = 0)

def daysInMonth (y m : Nat) : Nat :=
  if m = 2 then (if isLeap y then 29 else 28)
  else if m = 4 || m = 6 || m = 9 || m = 11 then 30
  else 31

/-- The day field of `strptime`'s `%d`: `3[01]|[12]\d|0[1-9]|[1-9]`, which
must consume the whole remaining string. -/
def parseDay : List Char → Option Nat
  | [c] => if '1' ≤ c && c ≤ '9' then some (digitVal c) else none
  | [c1, c2] =>
    if c1 = '3' && ('0' ≤ c2 && c2 ≤ '1') then some (30 + digitVal c2)
    else if ('1' ≤ c1 && c1 ≤ '2') && isDigit c2 then
      some (10 * digitVal c1 + digitVal c2)
    else if c1 = '0' && ('1' ≤ c2 && c2 ≤ '9') then some (digitVal c2)
    else none
  | _ => none

/-- Month (`1[0-2]|0[1-9]|[1-9]`), the literal `-`, then the day; the
one-digit month alternative is the backtracking fallback of the two-digit
ones. -/
def parseMD (y : Nat) : List Char → Option PyDate
  | c1 :: c2 :: rest =>
    let two : Option PyDate :=
      if (c1 = '1' && ('0' ≤ c2 && c2 ≤ '2')) ||
         (c1 = '0' && ('1' ≤ c2 && c2 ≤ '9')) then
        match rest with
        | '-' :: rest2 =>
          (parseDay rest2).map (fun d => ⟨y, 10 * digitVal c1 + digitVal c2, d⟩)
        | _ => none
      else none
    match two with
    | some r => some r
    | none =>
      if ('1' ≤ c1 && c1 ≤ '9') && c2 = '-' then
        (parseDay rest).map (fun d => ⟨y, digitVal c1, d⟩)
      else none
  | _ => none

/-- `datetime.strptime(s, "%Y-%m-%d")`: four year digits, month, day, the
whole string consumed, and the `datetime` constructor's range checks
(year ≥ 1, day within the month, leap years included). -/
def strptimeYMD (s : List Char) : Option PyDate :=
  match s with
  | y1 :: y2 :: y3 :: y4 :: '-' :: rest =>
    if isDigit y1 && isDigit y2 && isDigit y3 && isDigit y4 then
      match parseMD (digitVal y1 * 1000 + digitVal y2 * 100 +
                     digitVal y3 * 10 + digitVal y4) rest with
      | some dt =>
        if 1 ≤ dt.dy && 1 ≤ dt.dd && dt.dd ≤ daysInMonth dt.dy dt.dm then some dt
        else none
      | none => none
    else none
  | _ => none

/-- Strict `datetime` order on dates (times equal): lexicographic. -/
def dateLex (a b : PyDate) : Bool :=
  a.dy < b.dy || (a.dy = b.dy && (a.dm < b.dm || (a.dm = b.dm && a.dd < b.dd)))

/-- `filing_dt < cutoff` where `filing_dt` is a midnight datetime and the
cutoff (`datetime.utcnow() - timedelta(days=BACKFILL_DAYS)`, supplied as a
parameter because it reads the wall clock) has date `cd` and time-of-day
`ct` (microseconds since midnight). -/
def beforeCutoff (fd cd : PyDate) (ct : Nat) : Bool :=
  dateLex fd cd || (fd = cd && 0 < ct)

def isTargetForm (f : List Char) : Bool :=
  f = "SC 13D".toList || f = "SC 13D/A".toList

/-- The line loop of `parse_master_index` (lines 139–163 of
`generate_feed_fast.py`).  A `CIK|` line turns data mode on and is skipped;
before data mode everything is skipped; lines with fewer than five
pipe-separated fields are skipped; a line with more than five fields makes
the five-name unpacking raise `ValueError`; non-target form types are
skipped; `strptime` raises on an unparseable date; filings older than the
cutoff are skipped; the rest are collected in order. -/
def parseIndexLines (cd : PyDate) (ct : Nat) :
    Bool → List (List Char) → Except PyExc (List FilingRef)
  | _, [] => .ok []
  | inData, line :: rest =>
    if pyStartsWith "CIK|".toList line then parseIndexLines cd ct true rest
    else if !inData then parseIndexLines cd ct inData rest
    else
      let parts := pySplitOn '|' line
      if parts.length < 5 then parseIndexLines cd ct inData rest
      else
        match parts with
        | [cik, company, form, dfiled, path] =>
          if !isTargetForm form then parseIndexLines cd ct inData rest
          else
            match strptimeYMD dfiled with
            | none => .error (.valueError "strptime".toList)
            | some fd =>
              if beforeCutoff fd cd ct then parseIndexLines cd ct inData rest
              else
                match parseIndexLines cd ct inData rest with
                | .error e => .error e
                | .ok es => .ok (⟨cik, company, form, dfiled, path⟩ :: es)
        | _ => .error (.valueError "too many values to unpack".toList)

/-- `parse_master_index` applied to already-fetched, already-decoded index
file content (the fetch, the gzip decoding and the latin-1 decode of lines
127–137 are modelled by supplying `content`; a failed fetch yields `[]`
before this loop runs). -/
def parse_master_index (cd : PyDate) (ct : Nat) (content : List Char) :
    Except PyExc (List FilingRef) :=
  parseIndexLines cd ct false (pySplitLines content)

/-! ## The fast script's per-filing main loop (lines 172–194) -/

structure FeedItem where
  ftitle : List Char
  flink : List Char
  fcontent : List Char
  fdate : List Char
deriving DecidableEq

def archivesPrefix : List Char := "https://www.sec.gov/Archives/".toList

/-- `f"[{label}] {emoji} {company} ({form_type})"` — the emoji string
literals in the source are themselves mojibake byte sequences, reproduced
here verbatim. -/
def mkTitle (f : FilingRef) : List Char :=
  let label := if f.form_type = "SC 13D".toList then "NEW".toList
               else "AMENDED".toList
  let emoji := if f.form_type = "SC 13D".toList then "âš¡".toList
               else "ðŸ”„".toList
  "[".toList ++ label ++ "] ".toList ++ emoji ++ " ".toList ++ f.company ++
    " (".toList ++ f.form_type ++ ")".toList

/-- One iteration of `for f in filings:` — fetch the document text (a
falsy/absent text skips), keyword-filter, extract Item 4, highlight
keywords then the company name, dedup by content hash, append the feed
item.  `fetch` stands for `fetch_filing_text` during the run; the claim's
assumption that fetching is deterministic during a run makes it a
function of the submission path. -/
def processFiling (fetch : List Char → Option (List Char))
    (st : List (List Char × List Char) × List FeedItem) (f : FilingRef) :
    List (List Char × List Char) × List FeedItem :=
  match fetch f.path with
  | none => st
  | some text =>
    if text = [] then st
    else if !keyword_match text KEYWORDS then st
    else match extract_item_4_fast text with
      | none => st
      | some item4 =>
        let highlighted := highlight_company (highlight_keywords item4 KEYWORDS) f.company
        match dedupStep st.1 f.path highlighted with
        | (false, _) => st
        | (true, seen2) =>
          (seen2,
           st.2 ++ [⟨mkTitle f, archivesPrefix ++ f.path, highlighted, f.date_filed⟩])

/-- The whole filing loop of a run, starting from the loaded `seen_hashes`
and an empty `items` list. -/
def runFilings (fetch : List Char → Option (List Char))
    (seen : List (List Char × List Char)) (fs : List FilingRef) :
    List (List Char × List Char) × List FeedItem :=
  fs.foldl (processFiling fetch) (seen, [])

/-! ## Feed Assembler -/

/-- A qualifying item as seen by the assembler; `datetime` values are
totally ordered, modelled as `Nat` timestamps. -/
structure QItem where
  qdate : Nat
  qpayload : List Char
deriving DecidableEq

def MAX_FEED_ITEMS : Nat := 50

/-- `generate_feed_fast.py` line 203:
`sorted(items, key=lambda x: x["date"], reverse=True)[:MAX_FEED_ITEMS]` —
a stable sort whose comparisons are reversed, then truncation. -/
def feedSelectFast (items : List QItem) : List QItem :=
  (items.mergeSort (fun a b => decide (b.qdate ≤ a.qdate))).take MAX_FEED_ITEMS

/-- `generate_feed.py` line 126: `items[:50]` — truncation of the items in
processing order, with no sort. -/
def feedSelectPlain (items : List QItem) : List QItem := items.take 50

/-- Document shape for the plain-text tier: a general `ITEM 4 … PURPOSE OF
TRANSACTION` header (arbitrary whitespace runs and separator run) followed
by `R`. -/
def headerDoc (ws1 seps ws2 ws3 R : List Char) : List Char :=
  "ITEM".toList ++ (ws1 ++ ('4' :: (seps ++ ("PURPOSE".toList ++
    (ws2 ++ ("OF".toList ++ (ws3 ++ ("TRANSACTION".toList ++ R))))))))

/-- Document shape for an `ITEM 5` boundary header followed by `post`. -/
def item5Doc (ws5 : List Char) (c5 : Char) (post : List Char) : List Char :=
  "ITEM".toList ++ (ws5 ++ ('5' :: c5 :: post))

/-! ## Helper lemmas: keyword matching -/

/-- The spec-side notion: `k` occurs in `t` as a case-insensitive literal
substring. -/
def CIOccurs (k t : List Char) : Prop :=
  ∃ u m v, t = u ++ m ++ v ∧ pyLower m = pyLower k

/-- 52 qualifying items whose first two are out of date order. -/
def items52 : List QItem := ⟨0, []⟩ :: ⟨1, []⟩ :: List.replicate 50 ⟨0, []⟩

/-- Rows of the document table that the row loop passes over without
selecting: empty rows and rows whose fourth cell's stripped text does not
start with `SC 13D`. -/
def NoMatchRow (row : List Cell) : Prop :=
  row = [] ∨ (3 < row.length ∧
    pyStartsWith "SC 13D".toList (pyStrip (row.getD 3 dummyCell).ctext) = false)

/-- Zero-padding, stated from the spec's words: prefix a `0` to one-digit
numbers. -/
def specPad2 (n : Nat) : List Char := (if n < 10 then ['0'] else []) ++ natDigits n

/-- A sample master-index record. -/
def sampleFiling : FilingRef :=
  ⟨"111".toList, "Acme".toList, "SC 13D".toList, "2026-01-05".toList,
   "edgar/data/111/0001.txt".toList⟩

/-- Separator characters in both scripts' header classes (the fast class
differs only in its mojibake characters, the plain one in its real
dashes). -/
def commonSep (c : Char) : Bool := c = '.' || c = '-' || c = ':' || pySpace c

/-- The lines after the first `CIK|` marker line. -/
def afterMarker : List (List Char) → List (List Char)
  | [] => []
  | l :: ls => if pyStartsWith "CIK|".toList l then ls else afterMarker ls

/-- The record a single data line contributes, per the spec's description:
five pipe-delimited fields, a target form type, a filing date within the
cutoff. -/
def specLineEntry (cd : PyDate) (ct : Nat) (line : List Char) :
    Option FilingRef :=
  match pySplitOn '|' line with
  | [cik, company, form, dfiled, path] =>
    if isTargetForm form then
      match strptimeYMD dfiled with
      | some fd =>
        if beforeCutoff fd cd ct then none
        else some ⟨cik, company, form, dfiled, path⟩
      | none => none
    else none
  | _ => none

/-- The records of an index file per the spec: the qualifying data lines
after the marker (later marker lines are skipped). -/
def specIndexEntries (cd : PyDate) (ct : Nat) (content : List Char) :
    List FilingRef :=
  ((afterMarker (pySplitLines content)).filter
    (fun l => !pyStartsWith "CIK|".toList l)).filterMap (specLineEntry cd ct)

/-- A line the parser handles without raising: a marker line, a line with
fewer than five fields, or a five-field line whose form type is not a
target or whose date parses. -/
def lineSafe (l : List Char) : Bool :=
  pyStartsWith "CIK|".toList l ||
  decide ((pySplitOn '|' l).length < 5) ||
  (match pySplitOn '|' l with
   | [_, _, form, dfiled, _] =>
     !isTargetForm form || (strptimeYMD dfiled).isSome
   | _ => false)

/-- The spec's synthetic index: a header, a marker, and three data rows of
which two have target form types. -/
def indexContent : List Char :=
  ("Daily Index\nCIK|Company Name|Form Type|Date Filed|File Name\n" ++
   "111|Acme Corp|SC 13D|2026-10-10|edgar/data/111/0001.txt\n" ++
   "222|Beta Inc|10-K|2026-10-10|edgar/data/222/0002.txt\n" ++
   "333|Gamma LLC|SC 13D/A|2026-10-11|edgar/data/333/0003.txt").toList

deriving instance DecidableEq for Except

/-- The dedup hash the fast pipeline computes for a filing with submission
path `p` and company name `c` under a run-deterministic fetch: present
when the filing passes the text/keyword/extraction filters. -/
def filingOutcome (fetch : List Char → Option (List Char)) (p c : List Char) :
    Option (List Char) :=
  match fetch p with
  | none => none
  | some text =>
    if text = [] then none
    else if !keyword_match text KEYWORDS then none
    else match extract_item_4_fast text with
      | none => none
      | some item4 =>
        some (hash_text (highlight_company (highlight_keywords item4 KEYWORDS) c))

/-- Number of feed items carrying the archive link of path `p`. -/
def pathCount (p : List Char) (items : List FeedItem) : Nat :=
  (items.filter (fun it => decide (it.flink = archivesPrefix ++ p))).length

/-- The document text served by the deterministic fetch of the C10
scenarios. -/
def fetchDocText : List Char :=
  "ITEM 4 PURPOSE OF TRANSACTION buyout by ACME ITEM 5 x".toList

def cexFetch (p : List Char) : Option (List Char) :=
  if p = "edgar/data/1/a.txt".toList then some fetchDocText else none

/-- The same filing encountered twice with the same company name (as from
the compressed and uncompressed index of one day). -/
def dupFilingsSame : List FilingRef :=
  [⟨"1".toList, "ACME".toList, "SC 13D".toList, "2026-10-10".toList,
    "edgar/data/1/a.txt".toList⟩,
   ⟨"1".toList, "ACME".toList, "SC 13D".toList, "2026-10-10".toList,
    "edgar/data/1/a.txt".toList⟩]

/-- The same identifier encountered with two different company names. -/
def dupFilingsDiff : List FilingRef :=
  [⟨"1".toList, "ACME".toList, "SC 13D".toList, "2026-10-10".toList,
    "edgar/data/1/a.txt".toList⟩,
   ⟨"1".toList, "ZETA".toList, "SC 13D".toList, "2026-10-10".toList,
    "edgar/data/1/a.txt".toList⟩]

/-! ## Helper lemmas: case-insensitive matching -/

lemma ciEq_refl (c : Char) : ciEq c c = true := by simp [ciEq]

lemma ciConsume_self_append : ∀ (p s : List Char), ciConsume p (p ++ s) = some s
  | [], s => rfl
  | c :: ps, s => by simp [ciConsume, ciEq_refl, ciConsume_self_append ps s]

lemma ciConsume_some_starts :
    ∀ (p s r : List Char), ciConsume p s = some r → ciStartsWith p s = true
  | [], _, _, _ => rfl
  | _ :: _, [], _, h => by simp [ciConsume] at h
  | p :: ps, c :: cs, r, h => by
    simp only [ciConsume] at h
    by_cases hc : ciEq p c = true
    · simp only [hc, if_true] at h
      simp [ciStartsWith, hc, ciConsume_some_starts ps cs r h]
    · simp [hc] at h

lemma ciStartsWith_append_split :
    ∀ (d p X : List Char), ciStartsWith p (d ++ X) = true →
      ciStartsWith (p.take d.length) d = true ∧
      ciStartsWith (p.drop d.length) X = true
  | [], p, X, h => ⟨rfl, by simpa using h⟩
  | a :: l, [], X, _ => ⟨by simp [ciStartsWith], by simp [ciStartsWith]⟩
  | a :: l, q :: ps, X, h => by
    simp only [List.cons_append, ciStartsWith, Bool.and_eq_true] at h
    obtain ⟨h1, h2⟩ := h
    obtain ⟨hA, hB⟩ := ciStartsWith_append_split l ps X h2
    refine ⟨?_, ?_⟩
    · simpa [List.take, ciStartsWith, h1] using hA
    · simpa [List.drop] using hB

lemma ciStartsWith_of_longer {p d : List Char} (hl : p.length ≤ d.length)
    (h : ciStartsWith (p.take d.length) d = true) : ciStartsWith p d = true := by
  rwa [List.take_of_length_le hl] at h

/-- Patterns whose tail contains no character case-equal to `c0` cannot
start strictly inside `d` and continue across the boundary into
`c0 :: X`. -/
lemma no_cross_start (p : List Char) (c0 : Char)
    (hp : (p.drop 1).all (fun x => ! ciEq x c0) = true) :
    ∀ (d X : List Char), d ≠ [] → ciStartsWith p (d ++ c0 :: X) = true →
      ciStartsWith p d = true := by
  intro d X hd h
  obtain ⟨hA, hB⟩ := ciStartsWith_append_split d p (c0 :: X) h
  by_cases hl : p.length ≤ d.length
  · exact ciStartsWith_of_longer hl hA
  · exfalso
    push_neg at hl
    cases hpd : p.drop d.length with
    | nil =>
      have := List.length_drop d.length p
      rw [hpd] at this
      simp at this
      omega
    | cons q rest =>
      rw [hpd] at hB
      simp only [ciStartsWith, Bool.and_eq_true] at hB
      obtain ⟨hq, _⟩ := hB
      have h1 : 1 ≤ d.length := by
        cases d with
        | nil => exact absurd rfl hd
        | cons _ _ => simp
      have hdd : p.drop d.length = (p.drop 1).drop (d.length - 1) := by
        rw [List.drop_drop]
        congr 1
        omega
      have hq_mem : q ∈ p.drop 1 := by
        have hm : q ∈ p.drop d.length := by
          rw [hpd]; exact List.mem_cons_self q rest
        rw [hdd] at hm
        exact List.drop_subset _ _ hm
      have := List.all_eq_true.mp hp q hq_mem
      simp [hq] at this

lemma containsCI_of_drop (p : List Char) :
    ∀ (t : List Char) (n : Nat), ciStartsWith p (t.drop n) = true →
      containsCI p t = true
  | [], n, h => by simpa [containsCI] using h
  | c :: cs, 0, h => by
    rw [List.drop_zero] at h
    simp [containsCI, h]
  | c :: cs, n + 1, h => by
    simp only [List.drop_succ_cons] at h
    simp [containsCI, containsCI_of_drop p cs n h]

lemma containsCI_false_drop {p t : List Char} (h : containsCI p t = false) :
    ∀ n, ciStartsWith p (t.drop n) = false := by
  intro n
  by_contra hc
  rw [Bool.not_eq_false] at hc
  rw [containsCI_of_drop p t n hc] at h
  exact Bool.true_eq_false.mp h

lemma containsCI_cons_false {p : List Char} {c : Char} {cs : List Char}
    (h : containsCI p (c :: cs) = false) :
    ciStartsWith p (c :: cs) = false ∧ containsCI p cs = false := by
  simp only [containsCI, Bool.or_eq_false_iff] at h
  exact h

/-! ## Helper lemmas: scanners -/

lemma firstSome_append {α : Type} (f : List Char → Option α) :
    ∀ (pre X : List Char), (∀ n, n < pre.length → f (pre.drop n ++ X) = none) →
      firstSome f (pre ++ X) = firstSome f X := by
  intro pre
  induction pre with
  | nil => intro X _; rfl
  | cons a l ih =>
    intro X h
    have h0 : f (a :: (l ++ X)) = none := by
      have := h 0 (by simp)
      simpa using this
    have step : firstSome f (a :: (l ++ X)) = firstSome f (l ++ X) := by
      simp only [firstSome]
      rw [h0]
    rw [List.cons_append, step]
    exact ih X (fun n hn => by
      have := h (n + 1) (by simpa using Nat.succ_lt_succ hn)
      simpa using this)

lemma firstSome_eq_none {α : Type} (f : List Char → Option α) :
    ∀ (t : List Char), (∀ n, f (t.drop n) = none) → firstSome f t = none := by
  intro t
  induction t with
  | nil => intro h; simpa using h 0
  | cons a l ih =>
    intro h
    have h0 : f (a :: l) = none := by simpa using h 0
    simp only [firstSome, h0]
    exact ih (fun n => by simpa using h (n + 1))

lemma firstSome_cons_some {α : Type} (f : List Char → Option α) (c : Char)
    (cs : List Char) {r : α} (h : f (c :: cs) = some r) :
    firstSome f (c :: cs) = some r := by
  simp [firstSome, h]

lemma searchSplit_append {α : Type} (f : List Char → Option α) :
    ∀ (pre X : List Char), (∀ n, n < pre.length → f (pre.drop n ++ X) = none) →
      searchSplit f (pre ++ X) =
        (searchSplit f X).map (fun pr => (pre ++ pr.1, pr.2)) := by
  intro pre
  induction pre with
  | nil =>
    intro X _
    simp only [List.nil_append]
    cases hS : searchSplit f X with
    | none => simp
    | some pr => simp
  | cons a l ih =>
    intro X h
    have h0 : f (a :: (l ++ X)) = none := by
      have := h 0 (by simp)
      simpa using this
    have hrec := ih X (fun n hn => by
      have := h (n + 1) (by simpa using Nat.succ_lt_succ hn)
      simpa using this)
    have step : searchSplit f (a :: (l ++ X)) =
        (searchSplit f (l ++ X)).map (fun pr => (a :: pr.1, pr.2)) := by
      simp only [searchSplit]
      rw [h0]
    rw [List.cons_append, step, hrec]
    cases searchSplit f X with
    | none => rfl
    | some pr => rfl

lemma searchSplit_eq_none {α : Type} (f : List Char → Option α) :
    ∀ (t : List Char), (∀ n, f (t.drop n) = none) → searchSplit f t = none := by
  intro t
  induction t with
  | nil =>
    intro h
    have := h 0
    simp only [List.drop_zero] at this
    simp [searchSplit, this]
  | cons a l ih =>
    intro h
    have h0 : f (a :: l) = none := by simpa using h 0
    simp only [searchSplit, h0]
    rw [ih (fun n => by simpa using h (n + 1))]
    rfl

lemma searchSplit_cons_some {α : Type} (f : List Char → Option α) (c : Char)
    (cs : List Char) {r : α} (h : f (c :: cs) = some r) :
    searchSplit f (c :: cs) = some ([], r) := by
  simp [searchSplit, h]

/-! ## Helper lemmas: dropWhile and strips -/

lemma dropWhile_append_all {p : Char → Bool} :
    ∀ {l : List Char} (r : List Char), l.all p = true →
      (l ++ r).dropWhile p = r.dropWhile p := by
  intro l
  induction l with
  | nil => intro r _; rfl
  | cons a l2 ih =>
    intro r h
    simp only [List.all_cons, Bool.and_eq_true] at h
    simp only [List.cons_append, List.dropWhile_cons, h.1, if_true]
    exact ih r h.2

lemma dropWhile_cons_neg {p : Char → Bool} {c : Char} (r : List Char)
    (h : p c = false) : (c :: r).dropWhile p = c :: r := by
  simp [List.dropWhile_cons, h]

lemma dropWhile_all_append_neg {p : Char → Bool} {l : List Char} {c : Char}
    (r : List Char) (hl : l.all p = true) (hc : p c = false) :
    (l ++ c :: r).dropWhile p = c :: r := by
  rw [dropWhile_append_all _ hl, dropWhile_cons_neg _ hc]

/-! ## Helper lemmas: pattern scanners imply a pattern start -/

lemma tryHeaderAt_starts {sep : Char → Bool} {s r : List Char}
    (h : tryHeaderAt sep s = some r) :
    ciStartsWith "ITEM".toList s = true := by
  unfold tryHeaderAt at h
  cases hc : ciConsume "ITEM".toList s with
  | none => rw [hc] at h; simp at h
  | some s1 => exact ciConsume_some_starts _ _ _ hc

lemma tryItem5At_starts {sep : Char → Bool} {s : List Char} {r : Unit}
    (h : tryItem5At sep s = some r) :
    ciStartsWith "ITEM".toList s = true := by
  unfold tryItem5At at h
  cases hc : ciConsume "ITEM".toList s with
  | none => rw [hc] at h; simp at h
  | some s1 => exact ciConsume_some_starts _ _ _ hc

lemma tryTaggedAt_starts {s r : List Char} (h : tryTaggedAt s = some r) :
    ciStartsWith "<item".toList s = true := by
  unfold tryTaggedAt at h
  cases hc : ciConsume "<item".toList s with
  | none => rw [hc] at h; simp at h
  | some s1 => exact ciConsume_some_starts _ _ _ hc

lemma closeTagAt_starts {s : List Char} (h : closeTagAt s = true) :
    ciStartsWith "</item".toList s = true := by
  unfold closeTagAt at h
  cases hc : ciConsume "</item".toList s with
  | none => rw [hc] at h; simp at h
  | some s1 => exact ciConsume_some_starts _ _ _ hc

lemma wsPlus_append_neg {ws : List Char} {c : Char} (r : List Char)
    (hne : ws ≠ []) (hall : ws.all pySpace = true) (hc : pySpace c = false) :
    wsPlus (ws ++ c :: r) = some (c :: r) := by
  cases ws with
  | nil => exact absurd rfl hne
  | cons w ws2 =>
    have hw : pySpace w = true := by
      simp only [List.all_cons, Bool.and_eq_true] at hall
      exact hall.1
    have hdrop : ((w :: ws2) ++ c :: r).dropWhile pySpace = c :: r :=
      dropWhile_all_append_neg r hall hc
    rw [List.cons_append]
    simp only [wsPlus, hw, if_true]
    rw [← List.cons_append, hdrop]

/-- Failure of a start-anchored scanner at every position strictly inside
`pre`, given that `pre` contains no occurrence of the scanner's leading
literal and the text after `pre` begins with the literal's first
character. -/
lemma scanner_fail_pre {α : Type} (p : List Char) (c0 : Char)
    (hp : (p.drop 1).all (fun x => ! ciEq x c0) = true)
    (g : List Char → Option α)
    (hg : ∀ s r, g s = some r → ciStartsWith p s = true)
    (pre Y : List Char) (hpre : containsCI p pre = false) :
    ∀ n, n < pre.length → g (pre.drop n ++ c0 :: Y) = none := by
  intro n hn
  cases hgv : g (pre.drop n ++ c0 :: Y) with
  | none => rfl
  | some r =>
    exfalso
    have hs := hg _ _ hgv
    have hd : pre.drop n ≠ [] := by
      intro hnil
      have hlen := List.length_drop n pre
      rw [hnil] at hlen
      simp at hlen
      omega
    have h1 := no_cross_start p c0 hp _ _ hd hs
    have h2 := containsCI_of_drop p pre n h1
    rw [hpre] at h2
    exact Bool.false_ne_true h2

lemma itemCons (X : List Char) : "ITEM".toList ++ X = 'I' :: ("TEM".toList ++ X) := rfl

lemma purposeCons (X : List Char) :
    "PURPOSE".toList ++ X = 'P' :: ("URPOSE".toList ++ X) := rfl

lemma ofCons (X : List Char) : "OF".toList ++ X = 'O' :: ("F".toList ++ X) := rfl

lemma transactionCons (X : List Char) :
    "TRANSACTION".toList ++ X = 'T' :: ("RANSACTION".toList ++ X) := rfl

lemma openItemCons (X : List Char) :
    "<item".toList ++ X = '<' :: ("item".toList ++ X) := rfl

lemma closeItemCons (X : List Char) :
    "</item".toList ++ X = '<' :: ("/item".toList ++ X) := rfl

lemma tryHeaderAt_exact {sep : Char → Bool} (ws1 seps ws2 ws3 R : List Char)
    (hws1 : ws1 ≠ []) (hws1a : ws1.all pySpace = true)
    (hseps : seps.all sep = true) (hP : sep 'P' = false)
    (hws2 : ws2 ≠ []) (hws2a : ws2.all pySpace = true)
    (hws3 : ws3 ≠ []) (hws3a : ws3.all pySpace = true) :
    tryHeaderAt sep ("ITEM".toList ++ (ws1 ++ ('4' ::
      (seps ++ ("PURPOSE".toList ++ (ws2 ++ ("OF".toList ++ (ws3 ++
       ("TRANSACTION".toList ++ R))))))))) = some R := by
  unfold tryHeaderAt
  rw [ciConsume_self_append]
  simp only [Option.bind_eq_bind, Option.some_bind]
  rw [wsPlus_append_neg _ hws1 hws1a (by decide)]
  simp only [Option.some_bind]
  rw [purposeCons, dropWhile_all_append_neg _ hseps hP, ← purposeCons,
      ciConsume_self_append]
  simp only [Option.some_bind]
  rw [ofCons, wsPlus_append_neg _ hws2 hws2a (by decide)]
  simp only [Option.some_bind]
  rw [← ofCons, ciConsume_self_append]
  simp only [Option.some_bind]
  rw [transactionCons, wsPlus_append_neg _ hws3 hws3a (by decide)]
  simp only [Option.some_bind]
  rw [← transactionCons]
  exact ciConsume_self_append _ R

lemma tryItem5At_exact {sep : Char → Bool} (ws5 post : List Char) (c5 : Char)
    (hws5 : ws5 ≠ []) (hws5a : ws5.all pySpace = true) (hc5 : sep c5 = true) :
    tryItem5At sep ("ITEM".toList ++ (ws5 ++ ('5' :: c5 :: post))) = some () := by
  unfold tryItem5At
  rw [ciConsume_self_append]
  simp only [Option.bind_eq_bind, Option.some_bind]
  rw [wsPlus_append_neg _ hws5 hws5a (by decide)]
  simp only [Option.some_bind, hc5, if_true]

lemma tryHeaderAt_fail_pre (sep : Char → Bool) (pre X : List Char)
    (hpre : containsCI "ITEM".toList pre = false) :
    ∀ n, n < pre.length →
      tryHeaderAt sep (pre.drop n ++ ("ITEM".toList ++ X)) = none := by
  intro n hn
  rw [itemCons]
  exact scanner_fail_pre "ITEM".toList 'I' (by decide) (tryHeaderAt sep)
    (fun _ _ h => tryHeaderAt_starts h) pre _ hpre n hn

lemma tryItem5At_fail_pre (sep : Char → Bool) (pre X : List Char)
    (hpre : containsCI "ITEM".toList pre = false) :
    ∀ n, n < pre.length →
      tryItem5At sep (pre.drop n ++ ("ITEM".toList ++ X)) = none := by
  intro n hn
  rw [itemCons]
  exact scanner_fail_pre "ITEM".toList 'I' (by decide) (tryItem5At sep)
    (fun _ _ h => tryItem5At_starts h) pre _ hpre n hn

lemma tryHeaderAt_none_of_not_contains {sep : Char → Bool} {t : List Char}
    (h : containsCI "ITEM".toList t = false) :
    ∀ n, tryHeaderAt sep (t.drop n) = none := by
  intro n
  cases hv : tryHeaderAt sep (t.drop n) with
  | none => rfl
  | some r =>
    exfalso
    have hs := tryHeaderAt_starts hv
    rw [containsCI_false_drop h n] at hs
    exact Bool.false_ne_true hs

lemma tryItem5At_none_of_not_contains {sep : Char → Bool} {t : List Char}
    (h : containsCI "ITEM".toList t = false) :
    ∀ n, tryItem5At sep (t.drop n) = none := by
  intro n
  cases hv : tryItem5At sep (t.drop n) with
  | none => rfl
  | some r =>
    exfalso
    have hs := tryItem5At_starts hv
    rw [containsCI_false_drop h n] at hs
    exact Bool.false_ne_true hs

/-- The plain-text tier on a document with an Item 4 header and a later
Item 5 header: it returns exactly the trimmed text between them. -/
lemma plainTextItem4_with5 (sep : Char → Bool)
    (pre ws1 seps ws2 ws3 mid ws5 post : List Char) (c5 : Char)
    (hpre : containsCI "ITEM".toList pre = false)
    (hmid : containsCI "ITEM".toList mid = false)
    (hws1 : ws1 ≠ []) (hws1a : ws1.all pySpace = true)
    (hseps : seps.all sep = true) (hP : sep 'P' = false)
    (hws2 : ws2 ≠ []) (hws2a : ws2.all pySpace = true)
    (hws3 : ws3 ≠ []) (hws3a : ws3.all pySpace = true)
    (hws5 : ws5 ≠ []) (hws5a : ws5.all pySpace = true) (hc5 : sep c5 = true) :
    plainTextItem4 sep (pre ++ headerDoc ws1 seps ws2 ws3
        (mid ++ item5Doc ws5 c5 post)) = some (pyStrip mid) := by
  have hsearch1 : searchSplit (tryHeaderAt sep)
      (pre ++ headerDoc ws1 seps ws2 ws3 (mid ++ item5Doc ws5 c5 post)) =
      some (pre, mid ++ item5Doc ws5 c5 post) := by
    rw [show headerDoc ws1 seps ws2 ws3 (mid ++ item5Doc ws5 c5 post) =
        "ITEM".toList ++ (ws1 ++ ('4' :: (seps ++ ("PURPOSE".toList ++
          (ws2 ++ ("OF".toList ++ (ws3 ++ ("TRANSACTION".toList ++
            (mid ++ item5Doc ws5 c5 post))))))))) from rfl]
    rw [searchSplit_append _ pre _ (tryHeaderAt_fail_pre sep pre _ hpre)]
    rw [itemCons, searchSplit_cons_some _ _ _ (by
      rw [← itemCons]
      exact tryHeaderAt_exact ws1 seps ws2 ws3 _ hws1 hws1a hseps hP
        hws2 hws2a hws3 hws3a)]
    simp
  have hsearch5 : searchSplit (tryItem5At sep)
      (mid ++ item5Doc ws5 c5 post) = some (mid, ()) := by
    rw [show item5Doc ws5 c5 post =
        "ITEM".toList ++ (ws5 ++ ('5' :: c5 :: post)) from rfl]
    rw [searchSplit_append _ mid _ (tryItem5At_fail_pre sep mid _ hmid)]
    rw [itemCons, searchSplit_cons_some _ _ _ (by
      rw [← itemCons]
      exact tryItem5At_exact ws5 post c5 hws5 hws5a hc5)]
    simp
  unfold plainTextItem4
  rw [hsearch1]
  simp [hsearch5]

/-- The plain-text tier on a document with an Item 4 header and no Item 5
header after it: it returns the trimmed text to the end of the document. -/
lemma plainTextItem4_no5 (sep : Char → Bool)
    (pre ws1 seps ws2 ws3 mid : List Char)
    (hpre : containsCI "ITEM".toList pre = false)
    (hmid : containsCI "ITEM".toList mid = false)
    (hws1 : ws1 ≠ []) (hws1a : ws1.all pySpace = true)
    (hseps : seps.all sep = true) (hP : sep 'P' = false)
    (hws2 : ws2 ≠ []) (hws2a : ws2.all pySpace = true)
    (hws3 : ws3 ≠ []) (hws3a : ws3.all pySpace = true) :
    plainTextItem4 sep (pre ++ headerDoc ws1 seps ws2 ws3 mid) =
      some (pyStrip mid) := by
  have hsearch1 : searchSplit (tryHeaderAt sep)
      (pre ++ headerDoc ws1 seps ws2 ws3 mid) = some (pre, mid) := by
    rw [show headerDoc ws1 seps ws2 ws3 mid =
        "ITEM".toList ++ (ws1 ++ ('4' :: (seps ++ ("PURPOSE".toList ++
          (ws2 ++ ("OF".toList ++ (ws3 ++ ("TRANSACTION".toList ++
            mid)))))))) from rfl]
    rw [searchSplit_append _ pre _ (tryHeaderAt_fail_pre sep pre _ hpre)]
    rw [itemCons, searchSplit_cons_some _ _ _ (by
      rw [← itemCons]
      exact tryHeaderAt_exact ws1 seps ws2 ws3 _ hws1 hws1a hseps hP
        hws2 hws2a hws3 hws3a)]
    simp
  have hsearch5 : searchSplit (tryItem5At sep) mid = none :=
    searchSplit_eq_none _ mid (tryItem5At_none_of_not_contains hmid)
  unfold plainTextItem4
  rw [hsearch1]
  simp [hsearch5]

/-- The plain-text tier finds nothing in a document with no
case-insensitive `ITEM` at all. -/
lemma plainTextItem4_none (sep : Char → Bool) (t : List Char)
    (h : containsCI "ITEM".toList t = false) :
    plainTextItem4 sep t = none := by
  have : searchSplit (tryHeaderAt sep) t = none :=
    searchSplit_eq_none _ t (tryHeaderAt_none_of_not_contains h)
  unfold plainTextItem4
  rw [this]

/-! ## Helper lemmas: the tagged-markup tier -/

lemma tryTaggedAt_fail_pre (pre X : List Char)
    (hpre : containsCI "<item".toList pre = false) :
    ∀ n, n < pre.length →
      tryTaggedAt (pre.drop n ++ ("<item".toList ++ X)) = none := by
  intro n hn
  rw [openItemCons]
  exact scanner_fail_pre "<item".toList '<' (by decide) tryTaggedAt
    (fun _ _ h => tryTaggedAt_starts h) pre _ hpre n hn

lemma tryTaggedAt_none_of_not_contains {t : List Char}
    (h : containsCI "<item".toList t = false) :
    ∀ n, tryTaggedAt (t.drop n) = none := by
  intro n
  cases hv : tryTaggedAt (t.drop n) with
  | none => rfl
  | some r =>
    exfalso
    have hs := tryTaggedAt_starts hv
    rw [containsCI_false_drop h n] at hs
    exact Bool.false_ne_true hs

lemma firstSome_tagged_none {t : List Char}
    (h : containsCI "<item".toList t = false) :
    firstSome tryTaggedAt t = none :=
  firstSome_eq_none _ t (tryTaggedAt_none_of_not_contains h)

lemma closeTagAt_exact (seps2 post : List Char)
    (hseps2 : seps2.all tagSep = true) :
    closeTagAt ("</item".toList ++ (seps2 ++ ('4' :: '>' :: post))) = true := by
  unfold closeTagAt
  rw [ciConsume_self_append]
  show (match List.dropWhile tagSep (seps2 ++ '4' :: '>' :: post) with
        | '4' :: '>' :: _ => true
        | _ => false) = true
  rw [dropWhile_all_append_neg _ hseps2 (by decide)]
  rfl

lemma closeTagAt_false_cons {c : Char} {inner2 : List Char} (X : List Char)
    (h : containsCI "</item".toList (c :: inner2) = false) :
    closeTagAt ((c :: inner2) ++ ("</item".toList ++ X)) = false := by
  cases hv : closeTagAt ((c :: inner2) ++ ("</item".toList ++ X)) with
  | false => rfl
  | true =>
    exfalso
    have hs := closeTagAt_starts hv
    rw [closeItemCons] at hs
    have h1 := no_cross_start "</item".toList '<' (by decide) (c :: inner2) _
      (by simp) hs
    have h2 := containsCI_of_drop "</item".toList (c :: inner2) 0
      (by rw [List.drop_zero]; exact h1)
    rw [h] at h2
    exact Bool.false_ne_true h2

lemma captureUntilClose_concat (seps2 post : List Char)
    (hseps2 : seps2.all tagSep = true) :
    ∀ inner, containsCI "</item".toList inner = false →
      captureUntilClose (inner ++
        ("</item".toList ++ (seps2 ++ ('4' :: '>' :: post)))) = some inner := by
  intro inner
  induction inner with
  | nil =>
    intro _
    rw [List.nil_append, closeItemCons]
    simp only [captureUntilClose]
    rw [← closeItemCons, closeTagAt_exact seps2 post hseps2]
    rfl
  | cons c inner2 ih =>
    intro h
    obtain ⟨_, h2⟩ := containsCI_cons_false h
    have hfalse := closeTagAt_false_cons (seps2 ++ ('4' :: '>' :: post)) h
    rw [List.cons_append]
    simp only [captureUntilClose]
    rw [← List.cons_append, hfalse]
    simp only [Bool.false_eq_true, if_false]
    rw [ih h2]
    rfl

lemma openTagClose_attrs (attrs : List Char) {rest cap : List Char}
    (hattrs : attrs.all (fun c => !(c = '>')) = true)
    (hcap : captureUntilClose rest = some cap) :
    openTagClose (attrs ++ ('>' :: rest)) = some cap := by
  induction attrs with
  | nil =>
    rw [List.nil_append]
    simp only [openTagClose, if_true, hcap]
  | cons a as ih =>
    simp only [List.all_cons, Bool.and_eq_true] at hattrs
    have ha : (a = '>') = False := by
      simpa using hattrs.1
    rw [List.cons_append]
    simp only [openTagClose, ha, if_false]
    exact ih hattrs.2

lemma tryTaggedAt_exact (seps attrs inner seps2 post : List Char)
    (hseps : seps.all tagSep = true)
    (hattrs : attrs.all (fun c => !(c = '>')) = true)
    (hseps2 : seps2.all tagSep = true)
    (hinner : containsCI "</item".toList inner = false) :
    tryTaggedAt ("<item".toList ++ (seps ++ ('4' :: (attrs ++ ('>' ::
      (inner ++ ("</item".toList ++ (seps2 ++ ('4' :: '>' :: post)))))))))
      = some inner := by
  unfold tryTaggedAt
  rw [ciConsume_self_append]
  simp only [Option.bind_eq_bind, Option.some_bind]
  rw [dropWhile_all_append_neg _ hseps (by decide)]
  exact openTagClose_attrs attrs hattrs
    (captureUntilClose_concat seps2 post hseps2 inner hinner)

/-- Leftmost match of the tagged pattern on a document of the round-trip
shape: the captured group is exactly the inner text. -/
lemma firstSome_tagged_concat (pre seps attrs inner seps2 post : List Char)
    (hpre : containsCI "<item".toList pre = false)
    (hseps : seps.all tagSep = true)
    (hattrs : attrs.all (fun c => !(c = '>')) = true)
    (hseps2 : seps2.all tagSep = true)
    (hinner : containsCI "</item".toList inner = false) :
    firstSome tryTaggedAt (pre ++ ("<item".toList ++ (seps ++ ('4' ::
      (attrs ++ ('>' :: (inner ++ ("</item".toList ++
        (seps2 ++ ('4' :: '>' :: post)))))))))) = some inner := by
  rw [firstSome_append _ pre _ (tryTaggedAt_fail_pre pre _ hpre)]
  rw [openItemCons]
  exact firstSome_cons_some _ _ _ (by
    rw [← openItemCons]
    exact tryTaggedAt_exact seps attrs inner seps2 post hseps hattrs
      hseps2 hinner)

lemma pyStartsWith_iff : ∀ (p s : List Char),
    pyStartsWith p s = true ↔ p <+: s
  | [], s => by simp [pyStartsWith]
  | p :: ps, [] => by simp [pyStartsWith]
  | p :: ps, c :: cs => by
    simp only [pyStartsWith, Bool.and_eq_true, decide_eq_true_eq,
      List.cons_prefix_cons]
    exact and_congr Iff.rfl (pyStartsWith_iff ps cs)

lemma pyContains_iff : ∀ (n h : List Char), pyContains n h = true ↔ n <:+: h
  | n, [] => by
    simp only [pyContains, pyStartsWith_iff]
    constructor
    · intro hp
      exact hp.isInfix
    · intro hi
      exact (List.eq_nil_of_infix_nil hi) ▸ List.nil_prefix
  | n, c :: cs => by
    simp only [pyContains, Bool.or_eq_true]
    rw [pyStartsWith_iff, pyContains_iff n cs, List.infix_cons_iff]

lemma toLower_eq_big {c d : Char} (hd : 128 ≤ d.toNat) : c.toLower = d ↔ c = d := by
  unfold Char.toLower
  simp only []
  by_cases h : c.toNat ≥ 65 ∧ c.toNat ≤ 90
  · rw [if_pos h]
    have h1 : (Char.ofNat (c.toNat + 32)).toNat = c.toNat + 32 := by
      unfold Char.ofNat
      rw [dif_pos (Or.inl (by omega) : (c.toNat + 32).isValidChar)]
      rfl
    constructor
    · intro he
      exfalso
      have h2 : (Char.ofNat (c.toNat + 32)).toNat = d.toNat := by rw [he]
      omega
    · intro he
      exfalso
      have h2 : c.toNat = d.toNat := by rw [he]
      omega
  · rw [if_neg h]

lemma sreLower_eq_dotless {c : Char} : sreLower c = 'ı' ↔ c = 'ı' := by
  by_cases h1 : c = 'İ'
  · subst h1
    decide
  · by_cases h2 : c = 'K'
    · subst h2
      decide
    · unfold sreLower
      rw [if_neg h1, if_neg h2]
      exact toLower_eq_big (by decide)

lemma sreLower_eq_longs {c : Char} : sreLower c = 'ſ' ↔ c = 'ſ' := by
  by_cases h1 : c = 'İ'
  · subst h1
    decide
  · by_cases h2 : c = 'K'
    · subst h2
      decide
    · unfold sreLower
      rw [if_neg h1, if_neg h2]
      exact toLower_eq_big (by decide)

lemma ciEq_nonspecial {a b : Char} (ha : sreSpecial a = false)
    (hb : sreSpecial b = false) :
    ciEq a b = decide (sreLower a = sreLower b) := by
  simp only [sreSpecial, Bool.or_eq_false_iff, decide_eq_false_iff_not] at ha hb
  have hai : sreLower a ≠ 'ı' := fun h => ha.1.2 (sreLower_eq_dotless.mp h)
  have has : sreLower a ≠ 'ſ' := fun h => ha.1.1 (sreLower_eq_longs.mp h)
  have hbi : sreLower b ≠ 'ı' := fun h => hb.1.2 (sreLower_eq_dotless.mp h)
  have hbs : sreLower b ≠ 'ſ' := fun h => hb.1.1 (sreLower_eq_longs.mp h)
  unfold ciEq sreExtraPair
  simp [hai, has, hbi, hbs]

lemma pyCharLower_nonspecial {c : Char} (h : sreSpecial c = false) :
    pyCharLower c = [sreLower c] := by
  simp only [sreSpecial, Bool.or_eq_false_iff, decide_eq_false_iff_not] at h
  unfold pyCharLower sreLower
  rw [if_neg h.2, if_neg h.2]
  by_cases hk : c = 'K'
  · rw [if_pos hk, if_pos hk]
  · rw [if_neg hk, if_neg hk]

lemma pyLower_nonspecial : ∀ (s : List Char),
    (∀ c ∈ s, sreSpecial c = false) → pyLower s = s.map sreLower
  | [], _ => rfl
  | c :: cs, h => by
    have hc : pyCharLower c = [sreLower c] :=
      pyCharLower_nonspecial (h c (List.mem_cons_self c cs))
    have ih := pyLower_nonspecial cs (fun x hx => h x (List.mem_cons_of_mem c hx))
    simp only [pyLower, List.map_cons, List.flatten_cons] at ih ⊢
    rw [hc, ih]
    rfl

lemma ciStartsWith_iff_map : ∀ (p s : List Char),
    (∀ c ∈ p, sreSpecial c = false) → (∀ c ∈ s, sreSpecial c = false) →
    (ciStartsWith p s = true ↔ p.map sreLower <+: s.map sreLower)
  | [], s, _, _ => by simp [ciStartsWith]
  | p :: ps, [], _, _ => by simp [ciStartsWith]
  | p :: ps, c :: cs, hp, hs => by
    simp only [ciStartsWith, Bool.and_eq_true, List.map_cons, List.cons_prefix_cons]
    rw [ciEq_nonspecial (hp p (List.mem_cons_self p ps)) (hs c (List.mem_cons_self c cs))]
    simp only [decide_eq_true_eq]
    exact and_congr Iff.rfl (ciStartsWith_iff_map ps cs
      (fun x hx => hp x (List.mem_cons_of_mem p hx))
      (fun x hx => hs x (List.mem_cons_of_mem c hx)))

lemma containsCI_iff_map : ∀ (p t : List Char),
    (∀ c ∈ p, sreSpecial c = false) → (∀ c ∈ t, sreSpecial c = false) →
    (containsCI p t = true ↔ p.map sreLower <:+: t.map sreLower)
  | p, [], hp, _ => by
    show ciStartsWith p [] = true ↔ _
    rw [ciStartsWith_iff_map p [] hp (fun x hx => absurd hx (List.not_mem_nil x))]
    simp only [List.map_nil]
    constructor
    · intro hpre
      exact hpre.isInfix
    · intro hi
      exact (List.eq_nil_of_infix_nil hi) ▸ List.nil_prefix
  | p, c :: cs, hp, ht => by
    simp only [containsCI, Bool.or_eq_true, List.map_cons]
    rw [List.infix_cons_iff]
    exact or_congr
      (by simpa using ciStartsWith_iff_map p (c :: cs) hp ht)
      (containsCI_iff_map p cs hp (fun x hx => ht x (List.mem_cons_of_mem c hx)))

lemma CIOccurs_iff_map (k t : List Char)
    (hk : ∀ c ∈ k, sreSpecial c = false) (ht : ∀ c ∈ t, sreSpecial c = false) :
    CIOccurs k t ↔ k.map sreLower <:+: t.map sreLower := by
  constructor
  · rintro ⟨u, m, v, rfl, hm⟩
    refine ⟨u.map sreLower, v.map sreLower, ?_⟩
    have hmn : ∀ c ∈ m, sreSpecial c = false := fun c hc => ht c (by simp [hc])
    have h1 : m.map sreLower = k.map sreLower := by
      rw [← pyLower_nonspecial m hmn, ← pyLower_nonspecial k hk]
      exact hm
    rw [List.map_append, List.map_append, h1]
  · rintro ⟨s, t2, hts⟩
    have ht2 : t.map sreLower = s ++ (k.map sreLower ++ t2) := by
      rw [← List.append_assoc]
      exact hts.symm
    obtain ⟨t1, t23, rfl, hmap1, hmap23⟩ := List.map_eq_append_iff.mp ht2
    obtain ⟨m, v, rfl, hmapm, hmapv⟩ := List.map_eq_append_iff.mp hmap23
    refine ⟨t1, m, v, by simp [List.append_assoc], ?_⟩
    have hmn : ∀ c ∈ m, sreSpecial c = false := fun c hc => ht c (by simp [hc])
    rw [pyLower_nonspecial m hmn, pyLower_nonspecial k hk]
    exact hmapm

lemma pyContains_eq_containsCI (k t : List Char)
    (hk : ∀ c ∈ k, sreSpecial c = false) (ht : ∀ c ∈ t, sreSpecial c = false) :
    pyContains (pyLower k) (pyLower t) = containsCI k t := by
  rw [pyLower_nonspecial k hk, pyLower_nonspecial t ht]
  cases hB : containsCI k t with
  | true =>
    exact (pyContains_iff _ _).mpr ((containsCI_iff_map k t hk ht).mp hB)
  | false =>
    cases hA : pyContains (k.map sreLower) (t.map sreLower) with
    | false => rfl
    | true =>
      have hc := (containsCI_iff_map k t hk ht).mpr ((pyContains_iff _ _).mp hA)
      rw [hB] at hc
      exact absurd hc (by decide)

/-! ## Claim theorems -/

lemma dictGet_set_same (m : List (List Char × List Char)) (k v : List Char) :
    dictGet (dictSet m k v) k = some v := by
  simp [dictGet, dictSet, List.find?]

/-- **C1.** For every filing identifier, a feed item is emitted iff the
SHA-256 hash of the highlighted Item 4 content differs from the hash
stored for that identifier (or none is stored); when emitted the stored
hash becomes the new value; hence a second pass with identical identifier
and identical highlighted content is suppressed, while content whose hash
differs is re-emitted. -/
theorem dedup_emit_iff_hash_changed
    (seen : List (List Char × List Char)) (ident content : List Char) :
    ((dedupStep seen ident content).1 = true ↔
      dictGet seen ident ≠ some (hash_text content)) ∧
    dictGet (dedupStep seen ident content).2 ident = some (hash_text content) ∧
    (dedupStep (dedupStep seen ident content).2 ident content).1 = false ∧
    (∀ content2, hash_text content2 ≠ hash_text content →
      (dedupStep (dedupStep seen ident content).2 ident content2).1 = true) := by
  by_cases h : dictGet seen ident = some (hash_text content)
  · refine ⟨by simp [dedupStep, h], by simp [dedupStep, h], by simp [dedupStep, h], ?_⟩
    intro c2 hne
    simp only [dedupStep, h, if_true]
    rw [if_neg (fun he => hne (Option.some_inj.mp he).symm)]
  · refine ⟨by simp [dedupStep, h], ?_, ?_, ?_⟩
    · simp [dedupStep, h, dictGet_set_same]
    · simp [dedupStep, h, dictGet_set_same]
  
    · intro c2 hne
      simp only [dedupStep, h, if_false]
      simp only [dictGet_set_same]
      rw [if_neg (fun he => hne (Option.some_inj.mp he).symm)]

/-- Witness for C1: fresh identifier emits; identical content is then
suppressed; content with a different hash is re-emitted. -/
theorem dedup_emit_iff_hash_changed_witness :
    ((dedupStep [] "edgar/data/1/a.txt".toList
        "a <strong>buyout</strong>".toList).1 = true ↔
      dictGet [] "edgar/data/1/a.txt".toList ≠
        some (hash_text "a <strong>buyout</strong>".toList)) ∧
    (dedupStep (dedupStep [] "edgar/data/1/a.txt".toList
        "a <strong>buyout</strong>".toList).2 "edgar/data/1/a.txt".toList
        "a <strong>buyout</strong>".toList).1 = false ∧
    (dedupStep (dedupStep [] "edgar/data/1/a.txt".toList
        "a <strong>buyout</strong>".toList).2 "edgar/data/1/a.txt".toList
        "changed text".toList).1 = true := by
  obtain ⟨h1, _, h3, h4⟩ := dedup_emit_iff_hash_changed []
    "edgar/data/1/a.txt".toList "a <strong>buyout</strong>".toList
  exact ⟨h1, h3, h4 "changed text".toList (by decide)⟩

/-- **C5** (amended): on every text containing none of the three code
points U+017F (ſ), U+0131 (ı), U+0130 (İ) — in particular on every ASCII
text — the two keyword matchers (the lowercased substring containment of
`generate_feed.py` line 87 and the case-insensitive regex-escaped search
`keyword_match` of `generate_feed_fast.py`) return the same boolean, and
both hold exactly when some keyword occurs as a case-insensitive literal
substring.  On texts with those code points the matchers genuinely
diverge: `re.IGNORECASE` treats ſ~s and ı/İ~i as case-equivalent while
`str.lower()` containment does not — see the counterexample. -/
theorem keyword_match_agree_nonspecial (t : List Char)
    (h : ∀ c ∈ t, sreSpecial c = false) :
    anyKeywordLower t = keyword_match t KEYWORDS ∧
    (keyword_match t KEYWORDS = true ↔ ∃ k ∈ KEYWORDS, CIOccurs k t) := by
  have hkw : ∀ k ∈ KEYWORDS, ∀ c ∈ k, sreSpecial c = false := by decide
  constructor
  · unfold anyKeywordLower keyword_match
    rw [Bool.eq_iff_iff, List.any_eq_true, List.any_eq_true]
    constructor
    · rintro ⟨k, hk, hc⟩
      refine ⟨k, hk, ?_⟩
      rw [← pyContains_eq_containsCI k t (hkw k hk) h]
      exact hc
    · rintro ⟨k, hk, hc⟩
      refine ⟨k, hk, ?_⟩
      rw [pyContains_eq_containsCI k t (hkw k hk) h]
      exact hc
  · unfold keyword_match
    rw [List.any_eq_true]
    constructor
    · rintro ⟨k, hk, hc⟩
      exact ⟨k, hk, (CIOccurs_iff_map k t (hkw k hk) h).mpr
        ((containsCI_iff_map k t (hkw k hk) h).mp hc)⟩
    · rintro ⟨k, hk, ho⟩
      exact ⟨k, hk, (containsCI_iff_map k t (hkw k hk) h).mpr
        ((CIOccurs_iff_map k t (hkw k hk) h).mp ho)⟩

/-- Witness for C5 at the spec's own test string (special-code-point-free,
both matchers fire on it). -/
theorem keyword_match_agree_nonspecial_witness :
    (∀ c ∈ "This is a BUYOUT offer".toList, sreSpecial c = false) ∧
    (anyKeywordLower "This is a BUYOUT offer".toList =
      keyword_match "This is a BUYOUT offer".toList KEYWORDS ∧
    (keyword_match "This is a BUYOUT offer".toList KEYWORDS = true ↔
      ∃ k ∈ KEYWORDS, CIOccurs k "This is a BUYOUT offer".toList)) :=
  ⟨by decide,
   keyword_match_agree_nonspecial "This is a BUYOUT offer".toList (by decide)⟩

/-- Counterexample for the universally-quantified form of C5: at
"all ſhares" (with U+017F LATIN SMALL LETTER LONG S) and "fully acquİre"
(with U+0130 LATIN CAPITAL LETTER I WITH DOT ABOVE), the regex matcher of
`generate_feed_fast.py` accepts through `re.IGNORECASE`'s extra case
equivalences while the lowercased-containment filter of `generate_feed.py`
rejects: `"all ſhares".lower()` keeps ſ, and `"fully acquİre".lower()`
turns İ into i followed by U+0307, so no keyword is a substring. -/
theorem keyword_match_ignorecase_divergence :
    keyword_match "all ſhares".toList KEYWORDS = true ∧
    anyKeywordLower "all ſhares".toList = false ∧
    keyword_match "fully acquİre".toList KEYWORDS = true ∧
    anyKeywordLower "fully acquİre".toList = false := by decide

/-- **C6** (amended): the fast script's feed is the qualifying items
stably sorted by date descending and truncated to the cap of 50; with more
than 50 qualifying items exactly 50 appear, in non-increasing date order.
(`generate_feed.py` instead truncates in processing order with no sort —
see the counterexample.) -/
theorem feed_select_sorted_capped (items : List QItem)
    (h : 50 < items.length) :
    (feedSelectFast items).length = 50 ∧
    (feedSelectFast items).Pairwise (fun a b => b.qdate ≤ a.qdate) := by
  constructor
  · unfold feedSelectFast MAX_FEED_ITEMS
    rw [List.length_take, List.length_mergeSort]
    exact Nat.min_eq_left (Nat.le_of_lt h)
  · have hs := @List.sorted_mergeSort QItem
      (fun a b : QItem => decide (b.qdate ≤ a.qdate))
      (fun a b c hab hbc => by
        simp only [decide_eq_true_eq] at hab hbc ⊢
        omega)
      (fun a b => by
        simp only [Bool.or_eq_true, decide_eq_true_eq]
        omega)
      items
    have hp : (items.mergeSort (fun a b : QItem =>
        decide (b.qdate ≤ a.qdate))).Pairwise
        (fun a b : QItem => b.qdate ≤ a.qdate) :=
      hs.imp (fun hab => by simpa using hab)
    exact List.Pairwise.sublist (List.take_sublist _ _) hp

/-- Witness for C6 at a concrete 52-item collection. -/
theorem feed_select_sorted_capped_witness :
    (feedSelectFast items52).length = 50 ∧
    (feedSelectFast items52).Pairwise (fun a b => b.qdate ≤ a.qdate) :=
  feed_select_sorted_capped items52 (by decide)

/-- C6 counterexample: `generate_feed.py` line 126 truncates `items[:50]`
without sorting, so with 52 qualifying items whose dates are out of order
the emitted 50 are not date-descending, contradicting the claim for that
script. -/
theorem feed_plain_not_sorted :
    50 < items52.length ∧ (feedSelectPlain items52).length = 50 ∧
    ¬ (feedSelectPlain items52).Pairwise (fun a b : QItem => b.qdate ≤ a.qdate) := by
  refine ⟨by decide, by decide, fun hp => ?_⟩
  have he : feedSelectPlain items52 =
      ⟨0, []⟩ :: ⟨1, []⟩ :: List.replicate 48 ⟨0, []⟩ := by decide
  rw [he] at hp
  have h2 := (List.pairwise_cons.mp hp).1 ⟨1, []⟩ (List.mem_cons_self _ _)
  simp at h2

lemma scanDocRows_none (rows : List (List Cell))
    (h : ∀ row ∈ rows, NoMatchRow row) : scanDocRows rows = .ok none := by
  induction rows with
  | nil => rfl
  | cons row rest ih =>
    have hr := h row (List.mem_cons_self _ _)
    have htail := ih (fun r hr2 => h r (List.mem_cons_of_mem _ hr2))
    cases row with
    | nil => simpa [scanDocRows] using htail
    | cons cell cells =>
      rcases hr with h1 | ⟨h2, h3⟩
      · simp at h1
      · simp only [scanDocRows, h2, if_true, h3, Bool.false_eq_true, if_false]
        exact htail

/-- **C7** (amended): `fetch_filing_text` of `generate_feed_fast.py`
returns absent on a raising first request, a non-200 response, a missing
document table, a row set with no matching document type, and in general
whenever its body raises — never propagating an exception; of the same
failure classes, `get_primary_doc` of `generate_feed.py` returns absent
only for the missing table and the no-matching-row cases (its network
errors propagate — see the counterexample). -/
theorem locator_error_boundary :
    (∀ e f2, fetch_filing_text (.error e) f2 = none) ∧
    (∀ r f2, r.status ≠ 200 → fetch_filing_text (.ok r) f2 = none) ∧
    (∀ r f2, r.page.tableRows = none → fetch_filing_text (.ok r) f2 = none) ∧
    (∀ r f2 rows, r.page.tableRows = some rows →
      (∀ row ∈ rows.drop 1, NoMatchRow row) →
      fetch_filing_text (.ok r) f2 = none) ∧
    (∀ resp f2 e, fetchBody resp f2 = .error e →
      fetch_filing_text resp f2 = none) ∧
    (∀ page, page.tableRows = none → get_primary_doc (.ok page) = .ok none) ∧
    (∀ page rows, page.tableRows = some rows →
      (∀ row ∈ rows.drop 1, NoMatchRow row) →
      get_primary_doc (.ok page) = .ok none) := by
  refine ⟨?_, ?_, ?_, ?_, ?_, ?_, ?_⟩
  · intro e f2
    rfl
  · intro r f2 h
    simp [fetch_filing_text, fetchBody, h]
  · intro r f2 h
    by_cases hs : r.status = 200
    · simp [fetch_filing_text, fetchBody, hs, h]
    · simp [fetch_filing_text, fetchBody, hs]
  · intro r f2 rows hrows hnm
    by_cases hs : r.status = 200
    · simp [fetch_filing_text, fetchBody, hs, hrows, ← List.drop_one,
        scanDocRows_none _ hnm]
    · simp [fetch_filing_text, fetchBody, hs]
  · intro resp f2 e h
    simp [fetch_filing_text, h]
  · intro page h
    simp [get_primary_doc, h]
  · intro page rows hrows hnm
    simp [get_primary_doc, hrows, ← List.drop_one, scanDocRows_none _ hnm]

/-- Witness for C7: concrete instances of each boundary case. -/
theorem locator_error_boundary_witness :
    fetch_filing_text (.error (PyExc.netExc "timeout".toList))
      (fun _ => .error (PyExc.netExc "timeout".toList)) = none ∧
    fetch_filing_text (.ok ⟨404, ⟨none⟩, []⟩)
      (fun _ => .error (PyExc.netExc "timeout".toList)) = none ∧
    fetch_filing_text (.ok ⟨200, ⟨none⟩, []⟩)
      (fun _ => .error (PyExc.netExc "timeout".toList)) = none ∧
    fetch_filing_text
      (.ok ⟨200, ⟨some [[⟨"header".toList, none⟩],
        [⟨"1".toList, none⟩, ⟨"desc".toList, none⟩, ⟨"doc".toList, none⟩,
         ⟨"10-K".toList, none⟩, ⟨"5".toList, none⟩]]⟩, []⟩)
      (fun _ => .error (PyExc.netExc "timeout".toList)) = none ∧
    get_primary_doc (.ok ⟨none⟩) = .ok none := by
  obtain ⟨h1, h2, h3, h4, _, h6, _⟩ := locator_error_boundary
  refine ⟨h1 _ _, h2 _ _ (by decide), h3 _ _ rfl, ?_, h6 _ rfl⟩
  refine h4 _ _ _ rfl ?_
  intro row hrow
  simp only [List.drop_succ_cons, List.drop_zero, List.mem_singleton] at hrow
  subst hrow
  right
  refine ⟨by decide, by decide⟩

/-- C7 counterexample: `get_primary_doc` of `generate_feed.py` has no
exception handling, so a network error on its `requests.get` propagates
out of the function instead of yielding absent, contradicting the claim
for that script. -/
theorem get_primary_doc_raises :
    get_primary_doc (Except.error (PyExc.netExc "Connection aborted".toList)) =
      Except.error (PyExc.netExc "Connection aborted".toList) := rfl

lemma pyFmt02_eq_specPad2 (n : Nat) : pyFmt02 n = specPad2 n := by
  unfold pyFmt02 specPad2
  by_cases h : n < 10 <;> simp [h]

lemma qtr_eq (m : Nat) (h1 : 1 ≤ m) (h2 : m ≤ 12) :
    (if m ≤ 3 then "QTR1".toList
     else if m ≤ 6 then "QTR2".toList
     else if m ≤ 9 then "QTR3".toList
     else "QTR4".toList) = "QTR".toList ++ natDigits ((m + 2) / 3) := by
  interval_cases m <;> decide

lemma specPad2_len (n : Nat) (h1 : 1 ≤ n) (h2 : n ≤ 31) :
    (specPad2 n).length = 2 := by
  interval_cases n <;> decide

/-- **C8** (amended): the daily-index URLs carry the correct
quarter-of-year bucket (months 1–3 ↦ QTR1, …, 10–12 ↦ QTR4, i.e. quarter
`(m+2)/3`) and zero-padded two-digit month and day; the compressed variant
comes first in the list, but the main loop consumes the parse of *both*
URLs unconditionally — the uncompressed variant is not reserved for a
fallback (see the counterexample). -/
theorem index_urls_quarter_padded (y m d : Nat)
    (hm1 : 1 ≤ m) (hm2 : m ≤ 12) (hd1 : 1 ≤ d) (hd2 : d ≤ 31) :
    ∃ stem,
      get_index_urls_for_date y m d = [stem ++ ".gz".toList, stem] ∧
      stem = edgarBase ++ "/".toList ++ natDigits y ++ "/".toList ++
        ("QTR".toList ++ natDigits ((m + 2) / 3)) ++ "/master.".toList ++
        natDigits y ++ specPad2 m ++ specPad2 d ++ ".idx".toList ∧
      (specPad2 m).length = 2 ∧ (specPad2 d).length = 2 ∧
      (∀ fetchParse : List Char → List FilingRef,
        dayFilings fetchParse y m d =
          fetchParse (stem ++ ".gz".toList) ++ fetchParse stem) := by
  refine ⟨edgarBase ++ "/".toList ++ natDigits y ++ "/".toList ++
    ("QTR".toList ++ natDigits ((m + 2) / 3)) ++ "/master.".toList ++
    natDigits y ++ specPad2 m ++ specPad2 d ++ ".idx".toList, ?_, rfl,
    specPad2_len m hm1 (by omega), specPad2_len d hd1 hd2, ?_⟩
  · unfold get_index_urls_for_date
    rw [qtr_eq m hm1 hm2, pyFmt02_eq_specPad2, pyFmt02_eq_specPad2]
  · intro fetchParse
    unfold dayFilings get_index_urls_for_date
    rw [qtr_eq m hm1 hm2, pyFmt02_eq_specPad2, pyFmt02_eq_specPad2]
    simp [List.append_assoc]

/-- Witness for C8 at 2026-01-05. -/
theorem index_urls_quarter_padded_witness :
    ∃ stem,
      get_index_urls_for_date 2026 1 5 = [stem ++ ".gz".toList, stem] ∧
      stem = edgarBase ++ "/".toList ++ natDigits 2026 ++ "/".toList ++
        ("QTR".toList ++ natDigits ((1 + 2) / 3)) ++ "/master.".toList ++
        natDigits 2026 ++ specPad2 1 ++ specPad2 5 ++ ".idx".toList ∧
      (specPad2 1).length = 2 ∧ (specPad2 5).length = 2 ∧
      (∀ fetchParse : List Char → List FilingRef,
        dayFilings fetchParse 2026 1 5 =
          fetchParse (stem ++ ".gz".toList) ++ fetchParse stem) :=
  index_urls_quarter_padded 2026 1 5 (by decide) (by decide) (by decide)
    (by decide)

/-- C8 counterexample: with a parse oracle for which the compressed
variant is available (its parse is non-empty), the day's processed filing
sequence still contains the uncompressed variant's filings as well — the
uncompressed URL is not used "only as a fallback". -/
theorem index_urls_no_fallback :
    (fun _ => [sampleFiling] : List Char → List FilingRef)
        ((get_index_urls_for_date 2026 1 5).getD 0 []) ≠ [] ∧
    dayFilings (fun _ => [sampleFiling]) 2026 1 5 =
      [sampleFiling, sampleFiling] := by
  constructor
  · intro h
    simp at h
  · rfl

lemma commonSep_plain {c : Char} (h : commonSep c = true) :
    sepClassPlain c = true := by
  simp only [commonSep, sepClassPlain, Bool.or_eq_true] at *
  tauto

lemma commonSep_fast {c : Char} (h : commonSep c = true) :
    sepClassFast c = true := by
  simp only [commonSep, sepClassFast, Bool.or_eq_true] at *
  tauto

lemma all_commonSep_plain {l : List Char} (h : l.all commonSep = true) :
    l.all sepClassPlain = true := by
  rw [List.all_eq_true] at *
  exact fun c hc => commonSep_plain (h c hc)

lemma all_commonSep_fast {l : List Char} (h : l.all commonSep = true) :
    l.all sepClassFast = true := by
  rw [List.all_eq_true] at *
  exact fun c hc => commonSep_fast (h c hc)

/-- **C2.** On a plain-text document whose (first) `ITEM 4 … PURPOSE OF
TRANSACTION` header is followed by an `ITEM 5` header, `extract_item_4`
returns exactly the whitespace-trimmed text between the end of the Item 4
header and the start of the Item 5 header; with no Item 5 header it
returns the trimmed text to the end of the document; with no header
variant present it returns absent.  The same holds for the fast variant's
fallback when no tagged region is present. -/
theorem extract_item_4_header_fallback
    (pre ws1 seps ws2 ws3 mid ws5 post : List Char) (c5 : Char)
    (hpre : containsCI "ITEM".toList pre = false)
    (hmid : containsCI "ITEM".toList mid = false)
    (hws1 : ws1 ≠ []) (hws1a : ws1.all pySpace = true)
    (hseps : seps.all commonSep = true)
    (hws2 : ws2 ≠ []) (hws2a : ws2.all pySpace = true)
    (hws3 : ws3 ≠ []) (hws3a : ws3.all pySpace = true)
    (hws5 : ws5 ≠ []) (hws5a : ws5.all pySpace = true)
    (hc5 : commonSep c5 = true) :
    extract_item_4 (pre ++ headerDoc ws1 seps ws2 ws3
      (mid ++ item5Doc ws5 c5 post)) = some (pyStrip mid) ∧
    extract_item_4 (pre ++ headerDoc ws1 seps ws2 ws3 mid) =
      some (pyStrip mid) ∧
    (∀ t, containsCI "ITEM".toList t = false → extract_item_4 t = none) ∧
    (containsCI "<item".toList (pre ++ headerDoc ws1 seps ws2 ws3
        (mid ++ item5Doc ws5 c5 post)) = false →
      extract_item_4_fast (pre ++ headerDoc ws1 seps ws2 ws3
        (mid ++ item5Doc ws5 c5 post)) = some (pyStrip mid)) ∧
    (containsCI "<item".toList (pre ++ headerDoc ws1 seps ws2 ws3 mid) = false →
      extract_item_4_fast (pre ++ headerDoc ws1 seps ws2 ws3 mid) =
        some (pyStrip mid)) ∧
    (∀ t, containsCI "<item".toList t = false →
      containsCI "ITEM".toList t = false → extract_item_4_fast t = none) := by
  refine ⟨?_, ?_, ?_, ?_, ?_, ?_⟩
  · exact plainTextItem4_with5 sepClassPlain pre ws1 seps ws2 ws3 mid ws5
      post c5 hpre hmid hws1 hws1a (all_commonSep_plain hseps) (by decide)
      hws2 hws2a hws3 hws3a hws5 hws5a (commonSep_plain hc5)
  · exact plainTextItem4_no5 sepClassPlain pre ws1 seps ws2 ws3 mid hpre
      hmid hws1 hws1a (all_commonSep_plain hseps) (by decide) hws2 hws2a
      hws3 hws3a
  · exact fun t ht => plainTextItem4_none sepClassPlain t ht
  · intro htag
    unfold extract_item_4_fast
    rw [firstSome_tagged_none htag]
    exact plainTextItem4_with5 sepClassFast pre ws1 seps ws2 ws3 mid ws5
      post c5 hpre hmid hws1 hws1a (all_commonSep_fast hseps) (by decide)
      hws2 hws2a hws3 hws3a hws5 hws5a (commonSep_fast hc5)
  · intro htag
    unfold extract_item_4_fast
    rw [firstSome_tagged_none htag]
    exact plainTextItem4_no5 sepClassFast pre ws1 seps ws2 ws3 mid hpre
      hmid hws1 hws1a (all_commonSep_fast hseps) (by decide) hws2 hws2a
      hws3 hws3a
  · intro t h1 h2
    unfold extract_item_4_fast
    rw [firstSome_tagged_none h1]
    exact plainTextItem4_none sepClassFast t h2

/-- Witness for C2 on a concrete filing-shaped document, for both
extractors. -/
theorem extract_item_4_header_fallback_witness :
    extract_item_4 ("Schedule 13D ".toList ++ headerDoc [' '] ['.', ' ']
      [' '] [' '] (" A buyout of all shares. ".toList ++
        item5Doc [' '] '.' " Rest".toList)) =
      some (pyStrip " A buyout of all shares. ".toList) ∧
    extract_item_4_fast ("Schedule 13D ".toList ++ headerDoc [' '] ['.', ' ']
      [' '] [' '] (" A buyout of all shares. ".toList ++
        item5Doc [' '] '.' " Rest".toList)) =
      some (pyStrip " A buyout of all shares. ".toList) := by
  obtain ⟨h1, _, _, h4, _, _⟩ := extract_item_4_header_fallback
    "Schedule 13D ".toList [' '] ['.', ' '] [' '] [' ']
    " A buyout of all shares. ".toList [' '] " Rest".toList '.'
    (by decide) (by decide) (by decide) (by decide) (by decide) (by decide)
    (by decide) (by decide) (by decide) (by decide) (by decide) (by decide)
  exact ⟨h1, h4 (by decide)⟩

/-- **C3** (amended): `extract_item_4` of `generate_feed_fast.py` tries
the tagged-markup tier first — on a document with a markup-tagged item-4
region it returns exactly the non-greedily captured inner text, trimmed —
and its text-pattern fallback runs only when the tagged search finds
nothing.  (`generate_feed.py`'s extractor has no tagged tier at all — see
the counterexample.) -/
theorem extract_item_4_fast_tagged
    (pre seps attrs inner seps2 post : List Char)
    (hpre : containsCI "<item".toList pre = false)
    (hseps : seps.all tagSep = true)
    (hattrs : attrs.all (fun c => !(c = '>')) = true)
    (hseps2 : seps2.all tagSep = true)
    (hinner : containsCI "</item".toList inner = false) :
    extract_item_4_fast (pre ++ ("<item".toList ++ (seps ++ ('4' ::
      (attrs ++ ('>' :: (inner ++ ("</item".toList ++
        (seps2 ++ ('4' :: '>' :: post)))))))))) = some (pyStrip inner) ∧
    (∀ t, firstSome tryTaggedAt t = none →
      extract_item_4_fast t = plainTextItem4 sepClassFast t) := by
  constructor
  · unfold extract_item_4_fast
    rw [firstSome_tagged_concat pre seps attrs inner seps2 post hpre hseps
      hattrs hseps2 hinner]
  · intro t h
    unfold extract_item_4_fast
    rw [h]

/-- Witness for C3 at a concrete tagged document. -/
theorem extract_item_4_fast_tagged_witness :
    extract_item_4_fast ("doc ".toList ++ ("<item".toList ++ (['_'] ++ ('4' ::
      ([] ++ ('>' :: (" all shares acquired ".toList ++ ("</item".toList ++
        ([' '] ++ ('4' :: '>' :: " tail".toList)))))))))) =
      some (pyStrip " all shares acquired ".toList) :=
  (extract_item_4_fast_tagged "doc ".toList ['_'] []
    " all shares acquired ".toList [' '] " tail".toList (by decide)
    (by decide) (by decide) (by decide) (by decide)).1

/-- C3 counterexample: `generate_feed.py`'s `extract_item_4` (also cited
by the claim) has only the header-text pattern, so on a document whose
Item 4 exists only as a tagged region it returns absent where the claim
requires the inner text; the fast variant returns the inner text. -/
theorem extract_item_4_plain_ignores_tags :
    extract_item_4 "<item_4> fully acquire the issuer </item_4>".toList =
      none ∧
    extract_item_4_fast "<item_4> fully acquire the issuer </item_4>".toList =
      some "fully acquire the issuer".toList := by
  exact ⟨by decide, by decide⟩

/-- **C4.** The plain script's header class contains the genuine en dash
and em dash, so it locates `ITEM 4–PURPOSE OF TRANSACTION` (and the em
dash variant) and returns the section; the fast script's source is
mojibake-double-encoded, its class contains `â € “ ”` instead of the
dashes, and the same documents make its extractor return absent. -/
theorem dash_header_plain_vs_fast :
    extract_item_4
      "ITEM 4–PURPOSE OF TRANSACTION We will acquire 100% of the shares ITEM 5. x".toList =
      some "We will acquire 100% of the shares".toList ∧
    extract_item_4 "ITEM 4—PURPOSE OF TRANSACTION Takeover planned".toList =
      some "Takeover planned".toList ∧
    extract_item_4_fast
      "ITEM 4–PURPOSE OF TRANSACTION We will acquire 100% of the shares ITEM 5. x".toList =
      none ∧
    extract_item_4_fast
      "ITEM 4—PURPOSE OF TRANSACTION Takeover planned".toList = none := by
  exact ⟨by decide, by decide, by decide, by decide⟩

lemma parseIndexLines_data (cd : PyDate) (ct : Nat) :
    ∀ ls : List (List Char), ls.all lineSafe = true →
      parseIndexLines cd ct true ls = .ok
        ((ls.filter (fun l => !pyStartsWith "CIK|".toList l)).filterMap
          (specLineEntry cd ct)) := by
  intro ls
  induction ls with
  | nil => intro _; rfl
  | cons line rest ih =>
    intro h
    rw [List.all_cons, Bool.and_eq_true] at h
    obtain ⟨hline, hrest⟩ := h
    by_cases hm : pyStartsWith "CIK|".toList line = true
    · simp only [parseIndexLines, hm, if_true]
      rw [ih hrest]
      simp only [List.filter_cons, hm, Bool.not_true, Bool.false_eq_true,
        if_false]
    · rw [Bool.not_eq_true] at hm
      simp only [lineSafe, hm, Bool.false_or, Bool.or_eq_true,
        decide_eq_true_eq] at hline
      simp only [parseIndexLines, hm, Bool.false_eq_true, if_false,
        Bool.not_true, List.filter_cons, Bool.not_false, if_true]
      have hskip : parseIndexLines cd ct true rest =
          .ok ((rest.filter (fun l => !pyStartsWith "CIK|".toList l)).filterMap
            (specLineEntry cd ct)) := ih hrest
      rcases hps : pySplitOn '|' line with _ | ⟨a, _ | ⟨b, _ | ⟨c, _ |
        ⟨d, _ | ⟨e, _ | _⟩⟩⟩⟩⟩
      · have hspec : specLineEntry cd ct line = none := by
          simp only [specLineEntry, hps]
        rw [if_pos (by simp), hskip]
        simp only [List.filterMap_cons, hspec]
      · have hspec : specLineEntry cd ct line = none := by
          simp only [specLineEntry, hps]
        rw [if_pos (by simp), hskip]
        simp only [List.filterMap_cons, hspec]
      · have hspec : specLineEntry cd ct line = none := by
          simp only [specLineEntry, hps]
        rw [if_pos (by simp), hskip]
        simp only [List.filterMap_cons, hspec]
      · have hspec : specLineEntry cd ct line = none := by
          simp only [specLineEntry, hps]
        rw [if_pos (by simp), hskip]
        simp only [List.filterMap_cons, hspec]
      · have hspec : specLineEntry cd ct line = none := by
          simp only [specLineEntry, hps]
        rw [if_pos (by simp), hskip]
        simp only [List.filterMap_cons, hspec]
      · -- exactly five fields
        rw [hps] at hline
        rw [if_neg (by simp)]
        rcases hline with hlt | hmatch
        · simp at hlt
        · simp only at hmatch
          by_cases hform : isTargetForm c = true
          · have hsome : (strptimeYMD d).isSome = true := by
              rcases Bool.or_eq_true_iff.mp hmatch with hf | hs
              · rw [hform] at hf
                simp at hf
              · exact hs
            rw [Option.isSome_iff_exists] at hsome
            obtain ⟨fd, hfd⟩ := hsome
            have hspec : specLineEntry cd ct line =
                (if beforeCutoff fd cd ct then none
                 else some ⟨a, b, c, d, e⟩) := by
              simp only [specLineEntry, hps, hform, if_true, hfd]
            simp only [hform, Bool.not_true, Bool.false_eq_true, if_false,
              hfd]
            by_cases hbc : beforeCutoff fd cd ct = true
            · simp only [hbc, if_true]
              rw [hskip]
              simp only [List.filterMap_cons, hspec, hbc, if_true]
            · rw [Bool.not_eq_true] at hbc
              simp only [hbc, Bool.false_eq_true, if_false]
              rw [hskip]
              simp only [List.filterMap_cons, hspec, hbc,
                Bool.false_eq_true, if_false]
          · rw [Bool.not_eq_true] at hform
            have hspec : specLineEntry cd ct line = none := by
              simp only [specLineEntry, hps, hform, Bool.false_eq_true,
                if_false]
            simp only [hform, Bool.not_false, if_true]
            rw [hskip]
            simp only [List.filterMap_cons, hspec]
      · -- more than five fields contradicts safety
        rw [hps] at hline
        rcases hline with hlt | hmatch
        · simp only [List.length_cons] at hlt
          omega
        · simp at hmatch

lemma parseIndexLines_seek (cd : PyDate) (ct : Nat) :
    ∀ ls : List (List Char), ls.all lineSafe = true →
      parseIndexLines cd ct false ls = .ok
        (((afterMarker ls).filter
          (fun l => !pyStartsWith "CIK|".toList l)).filterMap
          (specLineEntry cd ct)) := by
  intro ls
  induction ls with
  | nil => intro _; rfl
  | cons line rest ih =>
    intro h
    rw [List.all_cons, Bool.and_eq_true] at h
    obtain ⟨_, hrest⟩ := h
    by_cases hm : pyStartsWith "CIK|".toList line = true
    · simp only [parseIndexLines, hm, if_true, afterMarker]
      exact parseIndexLines_data cd ct rest hrest
    · rw [Bool.not_eq_true] at hm
      simp only [parseIndexLines, hm, Bool.false_eq_true, if_false,
        Bool.not_false, if_true, afterMarker]
      exact ih hrest

/-- **C9** (amended): when every line is one the parser handles without
raising (markers, short lines, and five-field lines whose target-form
dates parse), `parse_master_index` returns exactly the records of the
data lines after the `CIK|` marker whose form type is `SC 13D` or
`SC 13D/A` and whose filing date lies within the lookback cutoff; all
other such lines produce no entry.  (A line with more than five fields
instead raises `ValueError` — see the counterexample.) -/
theorem parse_master_index_filters (cd : PyDate) (ct : Nat)
    (content : List Char)
    (h : (pySplitLines content).all lineSafe = true) :
    parse_master_index cd ct content = .ok (specIndexEntries cd ct content) := by
  unfold parse_master_index specIndexEntries
  exact parseIndexLines_seek cd ct _ h

/-- Witness for C9: the synthetic 3-row index yields exactly 2 entries. -/
theorem parse_master_index_filters_witness :
    parse_master_index ⟨2026, 10, 5⟩ 1 indexContent =
      .ok (specIndexEntries ⟨2026, 10, 5⟩ 1 indexContent) ∧
    (specIndexEntries ⟨2026, 10, 5⟩ 1 indexContent).length = 2 :=
  ⟨parse_master_index_filters ⟨2026, 10, 5⟩ 1 indexContent (by decide),
   by decide⟩

/-- C9 counterexample: a data line with six pipe-delimited fields does not
"produce no entry" — the five-name unpacking raises `ValueError` and the
parse aborts instead of returning the matching records. -/
theorem parse_master_index_extra_field_raises :
    parse_master_index ⟨2026, 10, 5⟩ 1
      ("CIK|Company Name|Form Type|Date Filed|File Name\n" ++
       "111|Acme|SC 13D|2026-10-10|edgar/data/111/0001.txt|junk").toList =
      .error (.valueError "too many values to unpack".toList) := by decide

lemma dictGet_set_ne (m : List (List Char × List Char)) {k k2 : List Char}
    (v : List Char) (h : k2 ≠ k) :
    dictGet (dictSet m k v) k2 = dictGet m k2 := by
  simp [dictGet, dictSet, List.find?, Ne.symm h]

lemma pathCount_append (p : List Char) (items : List FeedItem)
    (it : FeedItem) :
    pathCount p (items ++ [it]) =
      pathCount p items + (if it.flink = archivesPrefix ++ p then 1 else 0) := by
  unfold pathCount
  rw [List.filter_append]
  by_cases h : it.flink = archivesPrefix ++ p <;> simp [h]

lemma processFiling_facts (fetch : List Char → Option (List Char))
    (seen : List (List Char × List Char)) (items : List FeedItem)
    (f : FilingRef) :
    (∀ q, q ≠ f.path →
      dictGet (processFiling fetch (seen, items) f).1 q = dictGet seen q) ∧
    (∀ q, q ≠ f.path →
      pathCount q (processFiling fetch (seen, items) f).2 = pathCount q items) ∧
    (match filingOutcome fetch f.path f.company with
     | none => processFiling fetch (seen, items) f = (seen, items)
     | some h0 =>
       (dictGet seen f.path = some h0 →
         processFiling fetch (seen, items) f = (seen, items)) ∧
       (dictGet seen f.path ≠ some h0 →
         dictGet (processFiling fetch (seen, items) f).1 f.path = some h0 ∧
         pathCount f.path (processFiling fetch (seen, items) f).2 =
           pathCount f.path items + 1)) := by
  cases hf : fetch f.path with
  | none =>
    simp only [processFiling, filingOutcome, hf]
    exact ⟨fun _ _ => by simp, fun _ _ => by simp, by simp⟩
  | some text =>
    simp only [processFiling, filingOutcome, hf]
    by_cases he : text = []
    · subst he
      simp only [if_pos rfl]
      exact ⟨fun _ _ => by simp, fun _ _ => by simp, by simp⟩
    · rw [if_neg he, if_neg he]
      by_cases hk : keyword_match text KEYWORDS = true
      · simp only [hk, Bool.not_true, Bool.false_eq_true, if_false]
        cases hx : extract_item_4_fast text with
        | none => exact ⟨fun _ _ => by simp, fun _ _ => by simp, by simp⟩
        | some item4 =>
          by_cases hd : dictGet seen f.path = some (hash_text
              (highlight_company (highlight_keywords item4 KEYWORDS) f.company))
          · simp only [dedupStep, hd, if_true]
            exact ⟨fun _ _ => by simp, fun _ _ => by simp,
              fun _ => by simp, fun hne => absurd rfl hne⟩
          · simp only [dedupStep, if_neg hd]
            refine ⟨?_, ?_, ?_, ?_⟩
            · intro q hq
              exact dictGet_set_ne seen _ hq
            · intro q hq
              show pathCount q (items ++ [_]) = pathCount q items
              rw [pathCount_append,
                if_neg (fun heq => hq (List.append_cancel_left heq).symm)]
              omega
            · intro hcontra
              exact absurd hcontra hd
            · intro _
              refine ⟨dictGet_set_same seen f.path _, ?_⟩
              show pathCount f.path (items ++ [_]) = pathCount f.path items + 1
              rw [pathCount_append, if_pos rfl]
      · rw [Bool.not_eq_true] at hk
        simp only [hk, Bool.not_false, if_true]
        exact ⟨fun _ _ => by simp, fun _ _ => by simp, by simp⟩

lemma runFilings_credit (fetch : List Char → Option (List Char))
    (p c : List Char) :
    ∀ (fs : List FilingRef) (seen : List (List Char × List Char))
      (items : List FeedItem),
      (∀ f ∈ fs, f.path = p → f.company = c) →
      pathCount p (fs.foldl (processFiling fetch) (seen, items)).2 ≤
        pathCount p items +
          (match filingOutcome fetch p c with
           | none => 0
           | some h0 => if dictGet seen p = some h0 then 0 else 1) := by
  intro fs
  induction fs with
  | nil =>
    intro seen items _
    simp only [List.foldl_nil]
    cases filingOutcome fetch p c with
    | none => omega
    | some h0 =>
      by_cases hd : dictGet seen p = some h0 <;> simp [hd]
  | cons f fs ih =>
    intro seen items hc
    rw [List.foldl_cons]
    obtain ⟨hdict, hcount, hout⟩ := processFiling_facts fetch seen items f
    have hctail : ∀ g ∈ fs, g.path = p → g.company = c :=
      fun g hg => hc g (List.mem_cons_of_mem _ hg)
    by_cases hp : f.path = p
    · have hcc : f.company = c := hc f (List.mem_cons_self _ _) hp
      rw [hp, hcc] at hout
      cases ho : filingOutcome fetch p c with
      | none =>
        rw [ho] at hout
        rw [hout]
        have hih := ih seen items hctail
        rw [ho] at hih
        exact hih
      | some h0 =>
        rw [ho] at hout
        obtain ⟨hsupp, hemit⟩ := hout
        show pathCount p (List.foldl (processFiling fetch)
            (processFiling fetch (seen, items) f) fs).2 ≤
          pathCount p items + (if dictGet seen p = some h0 then 0 else 1)
        by_cases hd : dictGet seen p = some h0
        · rw [hsupp hd, if_pos hd]
          have hih := ih seen items hctail
          rw [ho] at hih
          have hih2 : pathCount p
              (List.foldl (processFiling fetch) (seen, items) fs).2 ≤
              pathCount p items +
                (if dictGet seen p = some h0 then 0 else 1) := hih
          rw [if_pos hd] at hih2
          exact hih2
        · rw [if_neg hd]
          obtain ⟨hd2, hcnt⟩ := hemit hd
          have hih := ih (processFiling fetch (seen, items) f).1
            (processFiling fetch (seen, items) f).2 hctail
          rw [ho] at hih
          have hih2 : pathCount p (List.foldl (processFiling fetch)
              (processFiling fetch (seen, items) f) fs).2 ≤
              pathCount p (processFiling fetch (seen, items) f).2 +
              (if dictGet (processFiling fetch (seen, items) f).1 p = some h0
               then 0 else 1) := hih
          rw [hcnt, hd2, if_pos rfl] at hih2
          omega
    · have hd := hdict p (fun he => hp he.symm)
      have hcnt := hcount p (fun he => hp he.symm)
      have hih := ih (processFiling fetch (seen, items) f).1
        (processFiling fetch (seen, items) f).2 hctail
      rw [hd, hcnt] at hih
      exact hih

/-- **C10** (amended): within a single run with deterministic document
fetching, if every encounter of an identifier carries the same company
name (as when the same filing is listed in both the compressed and the
uncompressed daily index), at most one feed item is appended for that
identifier: once its hash is recorded in the in-memory `seen_hashes`,
every later encounter recomputes the same hash and is suppressed. -/
theorem run_at_most_one_item_per_path
    (fetch : List Char → Option (List Char))
    (seen : List (List Char × List Char)) (fs : List FilingRef)
    (p c : List Char) (hc : ∀ f ∈ fs, f.path = p → f.company = c) :
    pathCount p (runFilings fetch seen fs).2 ≤ 1 := by
  have h := runFilings_credit fetch p c fs seen [] hc
  unfold runFilings
  have hz : pathCount p ([] : List FeedItem) = 0 := rfl
  rw [hz] at h
  refine le_trans h ?_
  cases filingOutcome fetch p c with
  | none => simp
  | some h0 =>
    by_cases hd : dictGet seen p = some h0
    · simp [hd]
    · simp [hd]

/-- Witness for C10: the duplicated same-company filing yields one item. -/
theorem run_at_most_one_item_per_path_witness :
    pathCount "edgar/data/1/a.txt".toList
      (runFilings cexFetch [] dupFilingsSame).2 ≤ 1 :=
  run_at_most_one_item_per_path cexFetch [] dupFilingsSame
    "edgar/data/1/a.txt".toList "ACME".toList (by decide)

/-- C10 counterexample: two encounters of the same identifier whose
company names differ recompute different highlighted content, hence
different hashes, and the run appends two feed items for that identifier —
the claim as stated (conditioned only on deterministic fetching) fails. -/
theorem run_two_items_same_path :
    pathCount "edgar/data/1/a.txt".toList
      (runFilings cexFetch [] dupFilingsDiff).2 = 2 := by decide

